import Mathlib

/-!
Verification of the named-axis coordinate algebra, field split/combine
utilities and filter/vectorization merge logic of the `neuralgcm`
repository (`neuralgcm/experimental`).

The repository snapshot contains the implementation of
`core/module_utils.py` together with the test suites for the coordinate
algebra (`coordax/coordinate_systems_test.py`), named arrays
(`coordax/named_axes_test.py`) and field utilities
(`core/field_utils_test.py`).  Functions whose implementation file is not
part of the snapshot (`consolidate_coordinates`, `compose_coordinates`,
`split_to_fields`, `combine_fields`, the `NamedArray` rebuild rule) are
modelled from the specification, and each such definition is validated
below against every concrete case of the corresponding test file.
-/

namespace NeuralGCM

/-- Coordinate variants of the coordax data model: `SizedAxis`,
`LabeledAxis`, `DummyAxis`, `Scalar`, `CartesianProduct`, `SelectedAxis`.
Label values are modelled as integer lists; structural equality matches
the dataclass equality of the source (same variant, names, sizes and, for
`LabeledAxis`, identical label sequences). -/
inductive Coordinate where
  | sizedAxis (name : String) (size : Nat)
  | labeledAxis (name : String) (labels : List Int)
  | dummyAxis (name : String) (size : Nat)
  | scalar
  | cartesianProduct (components : List Coordinate)
  | selectedAxis (parent : Coordinate) (axis : Nat)

namespace Coordinate

mutual

/-- Decidable structural equality of coordinates. -/
def coordDecEq : (a b : Coordinate) → Decidable (a = b)
  | .sizedAxis n s, .sizedAxis n' s' =>
    match decEq n n', decEq s s' with
    | isTrue h1, isTrue h2 => isTrue (by rw [h1, h2])
    | isFalse h1, _ => isFalse (by intro e; cases e; exact h1 rfl)
    | _, isFalse h2 => isFalse (by intro e; cases e; exact h2 rfl)
  | .labeledAxis n l, .labeledAxis n' l' =>
    match decEq n n', decEq l l' with
    | isTrue h1, isTrue h2 => isTrue (by rw [h1, h2])
    | isFalse h1, _ => isFalse (by intro e; cases e; exact h1 rfl)
    | _, isFalse h2 => isFalse (by intro e; cases e; exact h2 rfl)
  | .dummyAxis n s, .dummyAxis n' s' =>
    match decEq n n', decEq s s' with
    | isTrue h1, isTrue h2 => isTrue (by rw [h1, h2])
    | isFalse h1, _ => isFalse (by intro e; cases e; exact h1 rfl)
    | _, isFalse h2 => isFalse (by intro e; cases e; exact h2 rfl)
  | .scalar, .scalar => isTrue rfl
  | .cartesianProduct cs, .cartesianProduct ds =>
    match coordListDecEq cs ds with
    | isTrue h => isTrue (by rw [h])
    | isFalse h => isFalse (by intro e; cases e; exact h rfl)
  | .selectedAxis p i, .selectedAxis p' i' =>
    match coordDecEq p p', decEq i i' with
    | isTrue h1, isTrue h2 => isTrue (by rw [h1, h2])
    | isFalse h1, _ => isFalse (by intro e; cases e; exact h1 rfl)
    | _, isFalse h2 => isFalse (by intro e; cases e; exact h2 rfl)
  | .sizedAxis _ _, .labeledAxis _ _ => isFalse (fun h => Coordinate.noConfusion h)
  | .sizedAxis _ _, .dummyAxis _ _ => isFalse (fun h => Coordinate.noConfusion h)
  | .sizedAxis _ _, .scalar => isFalse (fun h => Coordinate.noConfusion h)
  | .sizedAxis _ _, .cartesianProduct _ => isFalse (fun h => Coordinate.noConfusion h)
  | .sizedAxis _ _, .selectedAxis _ _ => isFalse (fun h => Coordinate.noConfusion h)
  | .labeledAxis _ _, .sizedAxis _ _ => isFalse (fun h => Coordinate.noConfusion h)
  | .labeledAxis _ _, .dummyAxis _ _ => isFalse (fun h => Coordinate.noConfusion h)
  | .labeledAxis _ _, .scalar => isFalse (fun h => Coordinate.noConfusion h)
  | .labeledAxis _ _, .cartesianProduct _ => isFalse (fun h => Coordinate.noConfusion h)
  | .labeledAxis _ _, .selectedAxis _ _ => isFalse (fun h => Coordinate.noConfusion h)
  | .dummyAxis _ _, .sizedAxis _ _ => isFalse (fun h => Coordinate.noConfusion h)
  | .dummyAxis _ _, .labeledAxis _ _ => isFalse (fun h => Coordinate.noConfusion h)
  | .dummyAxis _ _, .scalar => isFalse (fun h => Coordinate.noConfusion h)
  | .dummyAxis _ _, .cartesianProduct _ => isFalse (fun h => Coordinate.noConfusion h)
  | .dummyAxis _ _, .selectedAxis _ _ => isFalse (fun h => Coordinate.noConfusion h)
  | .scalar, .sizedAxis _ _ => isFalse (fun h => Coordinate.noConfusion h)
  | .scalar, .labeledAxis _ _ => isFalse (fun h => Coordinate.noConfusion h)
  | .scalar, .dummyAxis _ _ => isFalse (fun h => Coordinate.noConfusion h)
  | .scalar, .cartesianProduct _ => isFalse (fun h => Coordinate.noConfusion h)
  | .scalar, .selectedAxis _ _ => isFalse (fun h => Coordinate.noConfusion h)
  | .cartesianProduct _, .sizedAxis _ _ => isFalse (fun h => Coordinate.noConfusion h)
  | .cartesianProduct _, .labeledAxis _ _ => isFalse (fun h => Coordinate.noConfusion h)
  | .cartesianProduct _, .dummyAxis _ _ => isFalse (fun h => Coordinate.noConfusion h)
  | .cartesianProduct _, .scalar => isFalse (fun h => Coordinate.noConfusion h)
  | .cartesianProduct _, .selectedAxis _ _ => isFalse (fun h => Coordinate.noConfusion h)
  | .selectedAxis _ _, .sizedAxis _ _ => isFalse (fun h => Coordinate.noConfusion h)
  | .selectedAxis _ _, .labeledAxis _ _ => isFalse (fun h => Coordinate.noConfusion h)
  | .selectedAxis _ _, .dummyAxis _ _ => isFalse (fun h => Coordinate.noConfusion h)
  | .selectedAxis _ _, .scalar => isFalse (fun h => Coordinate.noConfusion h)
  | .selectedAxis _ _, .cartesianProduct _ => isFalse (fun h => Coordinate.noConfusion h)

/-- Decidable structural equality of coordinate lists. -/
def coordListDecEq : (a b : List Coordinate) → Decidable (a = b)
  | [], [] => isTrue rfl
  | a :: as1, b :: bs =>
    match coordDecEq a b, coordListDecEq as1 bs with
    | isTrue h1, isTrue h2 => isTrue (by rw [h1, h2])
    | isFalse h1, _ => isFalse (by intro e; cases e; exact h1 rfl)
    | _, isFalse h2 => isFalse (by intro e; cases e; exact h2 rfl)
  | [], _ :: _ => isFalse (fun h => List.noConfusion h)
  | _ :: _, [] => isFalse (fun h => List.noConfusion h)

end

instance : DecidableEq Coordinate := coordDecEq

mutual

/-- `.axes`: the flattened tuple of all leaf single-axis coordinates a
coordinate ultimately contains.  A `SelectedAxis` is itself a single-axis
leaf; `Scalar` has no axes. -/
def axes : Coordinate → List Coordinate
  | .scalar => []
  | .cartesianProduct cs => axesList cs
  | c => [c]

/-- Concatenated axes of a list of coordinates. -/
def axesList : List Coordinate → List Coordinate
  | [] => []
  | c :: rest => axes c ++ axesList rest

end

/-- Number of leaf axes of a coordinate. -/
def numAxes (c : Coordinate) : Nat := (axes c).length

/-- Reconstruction of a run of `SelectedAxis` entries over parent `p`
with axis indices `0, 1, ..., k-1`. -/
def selRun (p : Coordinate) (k : Nat) : List Coordinate :=
  (List.range k).map (Coordinate.selectedAxis p)

/-- Modelled from the spec: the left-to-right scan of
`consolidate_coordinates` (implementation `coordax/coordinate_systems.py`
is not part of the snapshot).  The scan tracks the current run of
consecutive `SelectedAxis` entries over one parent whose axis indices are
strictly increasing from 0; as soon as the run exactly covers
`0..len(parent.axes)` the run is replaced by the parent itself.  Any
deviation flushes the pending run unmerged, exactly as given, and
non-`SelectedAxis` entries pass through unchanged, acting as run
boundaries.  The pending run is represented by its parent and length
(its entries are `selRun p k`). -/
def consolidateGo : Option (Coordinate × Nat) → List Coordinate → List Coordinate
  | none, [] => []
  | some (p, k), [] => selRun p k
  | none, c :: rest =>
    match c with
    | .selectedAxis p i =>
      if i = 0 then
        if numAxes p = 1 then p :: consolidateGo none rest
        else consolidateGo (some (p, 1)) rest
      else .selectedAxis p i :: consolidateGo none rest
    | c => c :: consolidateGo none rest
  | some (q, k), c :: rest =>
    match c with
    | .selectedAxis p i =>
      if p = q ∧ i = k then
        if k + 1 = numAxes q then q :: consolidateGo none rest
        else consolidateGo (some (q, k + 1)) rest
      else if i = 0 then
        if numAxes p = 1 then selRun q k ++ p :: consolidateGo none rest
        else selRun q k ++ consolidateGo (some (p, 1)) rest
      else selRun q k ++ .selectedAxis p i :: consolidateGo none rest
    | c => selRun q k ++ c :: consolidateGo none rest

/-- Modelled from the spec: `consolidate_coordinates(*coords)`. -/
def consolidate (cs : List Coordinate) : List Coordinate :=
  consolidateGo none cs

/-- One level of unraveling of a nested `CartesianProduct` argument into
its component list. -/
def unravel1 : Coordinate → List Coordinate
  | .cartesianProduct cs => cs
  | c => [c]

/-- Wrapper simplification: a `SelectedAxis` wrapping a 1-axis parent is
replaced by that parent directly. -/
def simplifySelected : Coordinate → Coordinate
  | .selectedAxis p i => if numAxes p = 1 then p else .selectedAxis p i
  | c => c

/-- Modelled from the spec: `compose_coordinates(*coords)`
(implementation `coordax/coordinate_systems.py` is not part of the
snapshot): unravel one level of nested `CartesianProduct` arguments,
replace any `SelectedAxis` wrapping a 1-axis parent with the parent, then
concatenate; a flat list with exactly one element is returned unwrapped,
otherwise the list is wrapped in `CartesianProduct`. -/
def compose_coordinates (cs : List Coordinate) : Coordinate :=
  match (cs.flatMap unravel1).map simplifySelected with
  | [c] => c
  | l => .cartesianProduct l

/-- Whether a coordinate is a `CartesianProduct`. -/
def isProduct : Coordinate → Bool
  | .cartesianProduct _ => true
  | _ => false

/-- Whether a coordinate is a `SelectedAxis`. -/
def isSelected : Coordinate → Bool
  | .selectedAxis _ _ => true
  | _ => false

mutual

/-- The stored-form invariant of the data model: a `SelectedAxis` refers
by index to one axis of a multi-axis parent (wrapping a 1-axis parent is
invalid as a stored form), and a `CartesianProduct` holds a non-empty
list of non-product components (one level of nesting is unraveled on
construction). -/
def valid : Coordinate → Bool
  | .selectedAxis p i => decide (2 ≤ numAxes p) && decide (i < numAxes p) && valid p
  | .cartesianProduct cs => !cs.isEmpty && validList cs
  | _ => true

/-- All components are valid and none is itself a product. -/
def validList : List Coordinate → Bool
  | [] => true
  | c :: rest => !(isProduct c) && valid c && validList rest

end

end Coordinate

open Coordinate

/-- The coordinate `P = CartesianProduct((SizedAxis('x', 2), SizedAxis('y', 3)))`
used by the consolidation tests. -/
def productXY : Coordinate :=
  .cartesianProduct [.sizedAxis "x" 2, .sizedAxis "y" 3]

-- Validation of the model against every case of
-- `test_consolidate_coordinates` in `coordinate_systems_test.py`.
example : consolidate [] = [] := by decide
example : consolidate [.sizedAxis "x" 2] = [.sizedAxis "x" 2] := by decide
example : consolidate [.selectedAxis (.sizedAxis "x" 2) 0] = [.sizedAxis "x" 2] := by
  decide
example :
    consolidate [.sizedAxis "x" 2, .labeledAxis "y" [0, 1, 2]] =
      [.sizedAxis "x" 2, .labeledAxis "y" [0, 1, 2]] := by decide
example :
    consolidate [.selectedAxis productXY 0, .selectedAxis productXY 1] =
      [productXY] := by decide
example :
    consolidate [.selectedAxis productXY 1, .selectedAxis productXY 0] =
      [.selectedAxis productXY 1, .selectedAxis productXY 0] := by decide
example :
    consolidate [.selectedAxis productXY 0] = [.selectedAxis productXY 0] := by
  decide
example :
    consolidate
        [.selectedAxis productXY 0, .selectedAxis productXY 1, .sizedAxis "z" 4] =
      [productXY, .sizedAxis "z" 4] := by decide
example :
    consolidate
        [.sizedAxis "z" 4, .selectedAxis productXY 0, .selectedAxis productXY 1] =
      [.sizedAxis "z" 4, productXY] := by decide
example :
    consolidate
        [.selectedAxis productXY 0, .sizedAxis "z" 4, .selectedAxis productXY 1] =
      [.selectedAxis productXY 0, .sizedAxis "z" 4, .selectedAxis productXY 1] := by
  decide
example :
    consolidate
        [.selectedAxis productXY 0, .selectedAxis (.sizedAxis "x" 4) 0] =
      [.selectedAxis productXY 0, .sizedAxis "x" 4] := by decide
example :
    consolidate
        [.selectedAxis (.sizedAxis "x" 4) 0, .selectedAxis productXY 0] =
      [.sizedAxis "x" 4, .selectedAxis productXY 0] := by decide

-- Validation of `compose_coordinates` against the cases of
-- `test_compose_coordinates` that the spec's three-step algorithm covers.
example :
    compose_coordinates [.selectedAxis (.sizedAxis "x" 4) 0, .sizedAxis "z" 7] =
      .cartesianProduct [.sizedAxis "x" 4, .sizedAxis "z" 7] := by decide
example :
    compose_coordinates
        [.sizedAxis "x" 7,
         .cartesianProduct [.sizedAxis "y" 7, .sizedAxis "z" 4]] =
      .cartesianProduct [.sizedAxis "x" 7, .sizedAxis "y" 7, .sizedAxis "z" 4] := by
  decide

/-- A pending run over `p`, fed exactly the remaining selections
`p[k], ..., p[numAxes p - 1]`, completes and is replaced by `p`. -/
lemma consolidateGo_run (p : Coordinate) :
    ∀ j k, 1 ≤ j → k + j = numAxes p → 1 ≤ k →
      consolidateGo (some (p, k))
        ((List.range' k j).map (Coordinate.selectedAxis p)) = [p] := by
  intro j
  induction j with
  | zero => intro k h1 _ _; omega
  | succ j ih =>
    intro k _ hsum hk
    rw [List.range'_succ]
    simp only [List.map_cons]
    simp only [consolidateGo]
    rw [if_pos ⟨trivial, trivial⟩]
    by_cases hj : j = 0
    · subst hj
      rw [if_pos (by omega)]
      simp [consolidateGo]
    · rw [if_neg (by omega)]
      exact ih (k + 1) (by omega) (by omega) (by omega)

/-- A complete run of selections over all axes of `p` consolidates
to `[p]`. -/
lemma consolidate_complete_run (p : Coordinate) (h : 1 ≤ numAxes p) :
    consolidate (selRun p (numAxes p)) = [p] := by
  obtain ⟨m, hm⟩ : ∃ m, numAxes p = m + 1 := ⟨numAxes p - 1, by omega⟩
  unfold consolidate selRun
  rw [hm, List.range_eq_range', List.range'_succ]
  simp only [List.map_cons]
  simp only [consolidateGo]
  rw [if_pos trivial]
  by_cases h1 : numAxes p = 1
  · rw [if_pos h1]
    have hm0 : m = 0 := by omega
    subst hm0
    simp [consolidateGo]
  · rw [if_neg h1]
    exact consolidateGo_run p m 1 (by omega) (by omega) (by omega)

/-- A pending run that never completes is flushed exactly as given. -/
lemma consolidateGo_unfinished (p : Coordinate) :
    ∀ j k, k + j < numAxes p → 1 ≤ k →
      consolidateGo (some (p, k))
        ((List.range' k j).map (Coordinate.selectedAxis p)) = selRun p (k + j) := by
  intro j
  induction j with
  | zero => intro k _ _; simp [consolidateGo]
  | succ j ih =>
    intro k hlt hk
    rw [List.range'_succ]
    simp only [List.map_cons]
    simp only [consolidateGo]
    rw [if_pos ⟨trivial, trivial⟩]
    rw [if_neg (by omega)]
    rw [ih (k + 1) (by omega) (by omega)]
    congr 1
    omega

/-- An incomplete prefix run of selections over `p` is returned exactly
as given. -/
lemma consolidate_incomplete_run (p : Coordinate) (k : Nat)
    (h : k < numAxes p) : consolidate (selRun p k) = selRun p k := by
  match k with
  | 0 => simp [consolidate, selRun, consolidateGo]
  | m + 1 =>
    unfold consolidate selRun
    rw [List.range_eq_range', List.range'_succ]
    simp only [List.map_cons]
    simp only [consolidateGo]
    rw [if_pos trivial]
    rw [if_neg (by omega)]
    rw [consolidateGo_unfinished p m 1 (by omega) (by omega)]
    rw [show 1 + m = m + 1 by omega]
    simp [selRun, List.range_eq_range', List.range'_succ]

/-- Entries that are not `SelectedAxis` pass through unchanged. -/
lemma consolidate_passthrough :
    ∀ l : List Coordinate, (∀ c ∈ l, isSelected c = false) → consolidate l = l := by
  intro l
  induction l with
  | nil => intro _; simp [consolidate, consolidateGo]
  | cons c rest ih =>
    intro h
    have hc : isSelected c = false := h c (List.mem_cons_self c rest)
    have hrest : consolidate rest = rest := ih fun x hx => h x (List.mem_cons_of_mem c hx)
    unfold consolidate at hrest ⊢
    cases c with
    | selectedAxis p i => simp [isSelected] at hc
    | sizedAxis n s => simp only [consolidateGo]; rw [hrest]
    | labeledAxis n ls => simp only [consolidateGo]; rw [hrest]
    | dummyAxis n s => simp only [consolidateGo]; rw [hrest]
    | scalar => simp only [consolidateGo]; rw [hrest]
    | cartesianProduct cs => simp only [consolidateGo]; rw [hrest]

/-- C1: `consolidate_coordinates` replaces each run of consecutive
`SelectedAxis` entries over the same parent whose axis indices are
strictly increasing and exactly cover `0..len(parent.axes)` by the parent
itself; deviating runs (wrong order, a gap filled by an unrelated axis,
or an incomplete subset of the parent's axes) are returned exactly as
given, and non-`SelectedAxis` entries pass through unchanged and bound
runs.  For `P = product(X, Y)`, consolidating
`[Selected(P,0), Selected(P,1)]` yields `[P]` and consolidating the same
pair in reversed order yields the input unchanged. -/
theorem consolidate_coordinates_claim :
    (consolidate [.selectedAxis productXY 0, .selectedAxis productXY 1] =
        [productXY]) ∧
    (consolidate [.selectedAxis productXY 1, .selectedAxis productXY 0] =
        [.selectedAxis productXY 1, .selectedAxis productXY 0]) ∧
    (∀ p : Coordinate, 1 ≤ numAxes p → consolidate (selRun p (numAxes p)) = [p]) ∧
    (∀ p : Coordinate, ∀ k, k < numAxes p → consolidate (selRun p k) = selRun p k) ∧
    (∀ l : List Coordinate, (∀ c ∈ l, isSelected c = false) → consolidate l = l) ∧
    (consolidate
        [.selectedAxis productXY 0, .sizedAxis "z" 4, .selectedAxis productXY 1] =
      [.selectedAxis productXY 0, .sizedAxis "z" 4, .selectedAxis productXY 1]) :=
  ⟨by decide, by decide, consolidate_complete_run, consolidate_incomplete_run,
   consolidate_passthrough, by decide⟩

/-- On a valid stored form, wrapper simplification is the identity:
a stored `SelectedAxis` never wraps a 1-axis parent. -/
lemma simplify_of_valid (c : Coordinate) (h : valid c = true) :
    simplifySelected c = c := by
  cases c with
  | selectedAxis p i =>
    simp only [valid, Bool.and_eq_true, decide_eq_true_eq] at h
    simp only [simplifySelected]
    rw [if_neg (by omega)]
  | sizedAxis n s => rfl
  | labeledAxis n l => rfl
  | dummyAxis n s => rfl
  | scalar => rfl
  | cartesianProduct cs => rfl

/-- Unfolding of list validity to membership form. -/
lemma validList_iff (cs : List Coordinate) :
    validList cs = true ↔ ∀ c ∈ cs, isProduct c = false ∧ valid c = true := by
  induction cs with
  | nil => simp [validList]
  | cons c rest ih =>
    simp only [validList, Bool.and_eq_true, Bool.not_eq_true', List.mem_cons]
    constructor
    · rintro ⟨⟨h1, h2⟩, h3⟩ x hx
      rcases hx with hx | hx
      · subst hx; exact ⟨h1, h2⟩
      · exact (ih.mp h3) x hx
    · intro h
      exact ⟨⟨(h c (Or.inl rfl)).1, (h c (Or.inl rfl)).2⟩,
        ih.mpr fun x hx => h x (Or.inr hx)⟩

/-- List validity distributes over append. -/
lemma validList_append (l1 l2 : List Coordinate) :
    validList (l1 ++ l2) = true ↔ validList l1 = true ∧ validList l2 = true := by
  simp only [validList_iff, List.mem_append]
  constructor
  · intro h
    exact ⟨fun c hc => h c (Or.inl hc), fun c hc => h c (Or.inr hc)⟩
  · rintro ⟨h1, h2⟩ c hc
    rcases hc with hc | hc
    · exact h1 c hc
    · exact h2 c hc

/-- The one-level unraveling of a valid coordinate is a valid,
product-free component list. -/
lemma unravel1_validList (c : Coordinate) (h : valid c = true) :
    validList (unravel1 c) = true := by
  cases c with
  | cartesianProduct cs =>
    simp only [valid, Bool.and_eq_true] at h
    exact h.2
  | selectedAxis p i => simp [unravel1, validList, isProduct, h]
  | sizedAxis n s => simp [unravel1, validList, isProduct, valid]
  | labeledAxis n l => simp [unravel1, validList, isProduct, valid]
  | dummyAxis n s => simp [unravel1, validList, isProduct, valid]
  | scalar => simp [unravel1, validList, isProduct, valid]

/-- The one-level unraveling of a valid coordinate is non-empty. -/
lemma unravel1_ne_nil (c : Coordinate) (h : valid c = true) :
    unravel1 c ≠ [] := by
  cases c with
  | cartesianProduct cs =>
    simp only [valid, Bool.and_eq_true, Bool.not_eq_true'] at h
    simpa [unravel1, List.isEmpty_iff] using h.1
  | sizedAxis n s => simp [unravel1]
  | labeledAxis n l => simp [unravel1]
  | dummyAxis n s => simp [unravel1]
  | scalar => simp [unravel1]
  | selectedAxis p i => simp [unravel1]

/-- Wrapper simplification is the identity on a valid component list. -/
lemma map_simplify_of_validList (cs : List Coordinate)
    (h : validList cs = true) : cs.map simplifySelected = cs := by
  induction cs with
  | nil => rfl
  | cons c rest ih =>
    rw [validList_iff] at h
    rw [List.map_cons, simplify_of_valid c (h c (List.mem_cons_self c rest)).2,
      ih (by rw [validList_iff]; exact fun x hx => h x (List.mem_cons_of_mem c hx))]

/-- The flat list computed by `compose_coordinates` on two valid
arguments is the concatenation of their one-level unravelings. -/
lemma flat_pair (a b : Coordinate) (ha : valid a = true) (hb : valid b = true) :
    (([a, b]).flatMap unravel1).map simplifySelected =
      unravel1 a ++ unravel1 b := by
  have hv : validList (unravel1 a ++ unravel1 b) = true :=
    (validList_append _ _).mpr ⟨unravel1_validList a ha, unravel1_validList b hb⟩
  rw [show ([a, b]).flatMap unravel1 = unravel1 a ++ unravel1 b by
    simp [List.flatMap]]
  exact map_simplify_of_validList _ hv

/-- The flat list computed by `compose_coordinates` on three valid
arguments. -/
lemma flat_triple (a b c : Coordinate) (ha : valid a = true)
    (hb : valid b = true) (hc : valid c = true) :
    (([a, b, c]).flatMap unravel1).map simplifySelected =
      unravel1 a ++ unravel1 b ++ unravel1 c := by
  have hv : validList (unravel1 a ++ unravel1 b ++ unravel1 c) = true :=
    (validList_append _ _).mpr
      ⟨(validList_append _ _).mpr
        ⟨unravel1_validList a ha, unravel1_validList b hb⟩,
       unravel1_validList c hc⟩
  rw [show ([a, b, c]).flatMap unravel1 =
      unravel1 a ++ unravel1 b ++ unravel1 c by
    simp [List.flatMap, List.append_assoc]]
  exact map_simplify_of_validList _ hv

/-- Composing two valid coordinates wraps the concatenation of their
unravelings in a `CartesianProduct` (the flat list has at least two
elements, so the unwrap-singleton branch is never taken). -/
lemma compose_pair (a b : Coordinate) (ha : valid a = true)
    (hb : valid b = true) :
    compose_coordinates [a, b] =
      .cartesianProduct (unravel1 a ++ unravel1 b) := by
  unfold compose_coordinates
  rw [flat_pair a b ha hb]
  rcases hA : unravel1 a with _ | ⟨x, xs⟩
  · exact absurd hA (unravel1_ne_nil a ha)
  rcases hB : unravel1 b with _ | ⟨y, ys⟩
  · exact absurd hB (unravel1_ne_nil b hb)
  cases xs with
  | nil => rfl
  | cons x' xs' => rfl

/-- Composing three valid coordinates wraps the concatenation of their
unravelings in a `CartesianProduct`. -/
lemma compose_triple (a b c : Coordinate) (ha : valid a = true)
    (hb : valid b = true) (hc : valid c = true) :
    compose_coordinates [a, b, c] =
      .cartesianProduct (unravel1 a ++ unravel1 b ++ unravel1 c) := by
  unfold compose_coordinates
  rw [flat_triple a b c ha hb hc]
  rcases hA : unravel1 a with _ | ⟨x, xs⟩
  · exact absurd hA (unravel1_ne_nil a ha)
  rcases hB : unravel1 b with _ | ⟨y, ys⟩
  · exact absurd hB (unravel1_ne_nil b hb)
  cases xs with
  | nil => rfl
  | cons x' xs' => rfl

/-- The pairwise composition of valid coordinates is itself valid. -/
lemma valid_compose_pair (a b : Coordinate) (ha : valid a = true)
    (hb : valid b = true) : valid (compose_coordinates [a, b]) = true := by
  rw [compose_pair a b ha hb]
  simp only [valid, Bool.and_eq_true, Bool.not_eq_true']
  refine ⟨?_, (validList_append _ _).mpr
    ⟨unravel1_validList a ha, unravel1_validList b hb⟩⟩
  rcases hA : unravel1 a with _ | ⟨x, xs⟩
  · exact absurd hA (unravel1_ne_nil a ha)
  · simp [List.isEmpty]

/-- C6: coordinate composition is associative: for any (valid stored
form) coordinates a, b, c,
`compose(compose(a,b),c) == compose(a,b,c) == compose(a,compose(b,c))`,
where `compose_coordinates` unravels one level of nested
`CartesianProduct` arguments, simplifies `SelectedAxis` over a 1-axis
parent to the parent, and wraps the resulting flat list in a
`CartesianProduct` unless exactly one element remains. -/
theorem compose_coordinates_assoc (a b c : Coordinate)
    (ha : valid a = true) (hb : valid b = true) (hc : valid c = true) :
    compose_coordinates [compose_coordinates [a, b], c] =
        compose_coordinates [a, b, c] ∧
      compose_coordinates [a, compose_coordinates [b, c]] =
        compose_coordinates [a, b, c] := by
  constructor
  · rw [compose_pair a b ha hb] at *
    rw [compose_pair (.cartesianProduct (unravel1 a ++ unravel1 b)) c
      (by rw [← compose_pair a b ha hb]; exact valid_compose_pair a b ha hb) hc]
    rw [compose_triple a b c ha hb hc]
    simp [unravel1]
  · rw [compose_pair b c hb hc] at *
    rw [compose_pair a (.cartesianProduct (unravel1 b ++ unravel1 c)) ha
      (by rw [← compose_pair b c hb hc]; exact valid_compose_pair b c hb hc)]
    rw [compose_triple a b c ha hb hc]
    simp [unravel1, List.append_assoc]

/-- Witness for `compose_coordinates_assoc` at concrete valid
coordinates. -/
theorem compose_coordinates_assoc_witness :
    compose_coordinates
        [compose_coordinates [Coordinate.sizedAxis "x" 2,
          Coordinate.labeledAxis "y" [0, 1]],
         Coordinate.selectedAxis productXY 0] =
      compose_coordinates [Coordinate.sizedAxis "x" 2,
        Coordinate.labeledAxis "y" [0, 1],
        Coordinate.selectedAxis productXY 0] :=
  (compose_coordinates_assoc (Coordinate.sizedAxis "x" 2)
    (Coordinate.labeledAxis "y" [0, 1]) (Coordinate.selectedAxis productXY 0)
    (by decide) (by decide) (by decide)).1

/-- Witness for `consolidate_coordinates_claim` at concrete inputs. -/
theorem consolidate_coordinates_claim_witness :
    consolidate (selRun productXY (numAxes productXY)) = [productXY] ∧
    consolidate (selRun productXY 1) = selRun productXY 1 ∧
    consolidate [Coordinate.sizedAxis "x" 2] = [Coordinate.sizedAxis "x" 2] :=
  ⟨consolidate_coordinates_claim.2.2.1 productXY (by decide),
   consolidate_coordinates_claim.2.2.2.1 productXY 1 (by decide),
   consolidate_coordinates_claim.2.2.2.2.1 [Coordinate.sizedAxis "x" 2]
     (by decide)⟩

/-!
## Filter algebra (`nnx.filterlib` predicates) and the conservative
disjointness check of `core/module_utils.py`.

Classes are modelled by an abstract type `C`; `issubclass` is an
arbitrary boolean relation `sub` on `C`, and a state variable carries the
concrete class of its value and an optional tag.  `isinstance(v, t)` is
`sub v.cls t`.
-/

/-- The closed predicate algebra of `nnx.filterlib` used by
`module_utils`: `Nothing`, `Everything`, `Not`, `Any`, `All`, `OfType`,
`WithTag`. -/
inductive Pred (C : Type) where
  | nothing
  | everything
  | neg (p : Pred C)
  | anyOf (ps : List (Pred C))
  | allOf (ps : List (Pred C))
  | ofType (t : C)
  | withTag (tag : String)

/-- A state variable: the class of its value and its optional tag. -/
structure StateVar (C : Type) where
  cls : C
  tag : Option String
deriving DecidableEq

namespace Pred

variable {C : Type} [DecidableEq C]

mutual

/-- Boolean structural equality of predicates (the dataclass equality
used for dict keys and the `p1.predicate == p2` test in the source). -/
def predBeq : Pred C → Pred C → Bool
  | .nothing, .nothing => true
  | .everything, .everything => true
  | .neg p, .neg q => predBeq p q
  | .anyOf ps, .anyOf qs => predListBeq ps qs
  | .allOf ps, .allOf qs => predListBeq ps qs
  | .ofType t1, .ofType t2 => decide (t1 = t2)
  | .withTag s1, .withTag s2 => decide (s1 = s2)
  | _, _ => false

/-- Boolean structural equality of predicate lists. -/
def predListBeq : List (Pred C) → List (Pred C) → Bool
  | [], [] => true
  | p :: ps, q :: qs => predBeq p q && predListBeq ps qs
  | _, _ => false

end

mutual

/-- `predBeq` implies equality. -/
theorem predBeq_eq : ∀ a b : Pred C, predBeq a b = true → a = b
  | .nothing, .nothing, _ => rfl
  | .everything, .everything, _ => rfl
  | .neg p, .neg q, h => by
    rw [predBeq_eq p q (by simpa [predBeq] using h)]
  | .anyOf ps, .anyOf qs, h => by
    rw [predListBeq_eq ps qs (by simpa [predBeq] using h)]
  | .allOf ps, .allOf qs, h => by
    rw [predListBeq_eq ps qs (by simpa [predBeq] using h)]
  | .ofType t1, .ofType t2, h => by
    rw [show t1 = t2 by simpa [predBeq] using h]
  | .withTag s1, .withTag s2, h => by
    rw [show s1 = s2 by simpa [predBeq] using h]

/-- `predListBeq` implies equality. -/
theorem predListBeq_eq : ∀ a b : List (Pred C), predListBeq a b = true → a = b
  | [], [], _ => rfl
  | p :: ps, q :: qs, h => by
    have h' : predBeq p q = true ∧ predListBeq ps qs = true := by
      simpa [predListBeq, Bool.and_eq_true] using h
    rw [predBeq_eq p q h'.1, predListBeq_eq ps qs h'.2]

end

mutual

/-- `predBeq` is reflexive. -/
theorem predBeq_refl : ∀ a : Pred C, predBeq a a = true
  | .nothing => rfl
  | .everything => rfl
  | .neg p => by simpa [predBeq] using predBeq_refl p
  | .anyOf ps => by simpa [predBeq] using predListBeq_refl ps
  | .allOf ps => by simpa [predBeq] using predListBeq_refl ps
  | .ofType t => by simp [predBeq]
  | .withTag s => by simp [predBeq]

/-- `predListBeq` is reflexive. -/
theorem predListBeq_refl : ∀ a : List (Pred C), predListBeq a a = true
  | [] => rfl
  | p :: ps => by
    simpa [predListBeq, Bool.and_eq_true] using ⟨predBeq_refl p, predListBeq_refl ps⟩

end

instance : DecidableEq (Pred C) := fun a b =>
  decidable_of_iff (predBeq a b = true)
    ⟨predBeq_eq a b, fun h => h ▸ predBeq_refl a⟩

end Pred

section FilterAlgebra

variable {C : Type} [DecidableEq C]

mutual

/-- Semantics of a predicate on a state variable: whether the filter
matches the variable.  `OfType` matches by `isinstance`, i.e. by the
subclass relation applied to the variable's class; `WithTag` matches a
variable carrying exactly that tag. -/
def matchesB (sub : C → C → Bool) : Pred C → StateVar C → Bool
  | .nothing, _ => false
  | .everything, _ => true
  | .neg p, v => !(matchesB sub p v)
  | .anyOf ps, v => matchesAny sub ps v
  | .allOf ps, v => matchesAll sub ps v
  | .ofType t, v => sub v.cls t
  | .withTag s, v => decide (v.tag = some s)

/-- Some predicate in the list matches. -/
def matchesAny (sub : C → C → Bool) : List (Pred C) → StateVar C → Bool
  | [], _ => false
  | p :: ps, v => matchesB sub p v || matchesAny sub ps v

/-- Every predicate in the list matches. -/
def matchesAll (sub : C → C → Bool) : List (Pred C) → StateVar C → Bool
  | [], _ => true
  | p :: ps, v => matchesB sub p v && matchesAll sub ps v

end

/-- Whether a predicate is `Nothing`. -/
def isNothingPred : Pred C → Bool
  | .nothing => true
  | _ => false

mutual

/-- `_are_certainly_disjoint_predicates` of `module_utils.py`: the
one-directional conservative disjointness check, deconstructing `p1`:
`Nothing` is disjoint from anything; `Everything` only from `Nothing`;
`Not p` from `p` itself; `Any` requires all sub-predicates disjoint from
`p2` and `All` some sub-predicate disjoint from `p2` (both checked
through the two-directional filter check, as in the source); `OfType`
pairs are disjoint when the types are not in a subclass relation;
`WithTag` pairs when the tags differ; every other case conservatively
returns `False`. -/
def disjointPred (sub : C → C → Bool) : Pred C → Pred C → Bool
  | .nothing, _ => true
  | .everything, p2 => isNothingPred p2
  | .neg q, p2 => decide (q = p2)
  | .anyOf ps, p2 => allDisjoint sub ps p2
  | .allOf ps, p2 => anyDisjoint sub ps p2
  | .ofType t1, .ofType t2 => !(sub t1 t2) && !(sub t2 t1)
  | .ofType _, _ => false
  | .withTag s1, .withTag s2 => decide (s1 ≠ s2)
  | .withTag _, _ => false
termination_by p1 p2 => sizeOf p1 + sizeOf p2

/-- All sub-predicates are (two-directionally) disjoint from `p2`. -/
def allDisjoint (sub : C → C → Bool) : List (Pred C) → Pred C → Bool
  | [], _ => true
  | q :: rest, p2 =>
    (disjointPred sub q p2 || disjointPred sub p2 q) && allDisjoint sub rest p2
termination_by l p2 => sizeOf l + sizeOf p2

/-- Some sub-predicate is (two-directionally) disjoint from `p2`. -/
def anyDisjoint (sub : C → C → Bool) : List (Pred C) → Pred C → Bool
  | [], _ => false
  | q :: rest, p2 =>
    (disjointPred sub q p2 || disjointPred sub p2 q) || anyDisjoint sub rest p2
termination_by l p2 => sizeOf l + sizeOf p2

end

/-- `_are_certainly_disjoint_filters`: the check is tried in both
directions (the source converts filters to predicates with
`to_predicate`; the model works directly on predicates). -/
def disjointFilters (sub : C → C → Bool) (f1 f2 : Pred C) : Bool :=
  disjointPred sub f1 f2 || disjointPred sub f2 f1

omit [DecidableEq C] in
/-- Membership form of `matchesAny`. -/
lemma matchesAny_iff (sub : C → C → Bool) (ps : List (Pred C)) (v : StateVar C) :
    matchesAny sub ps v = true ↔ ∃ q ∈ ps, matchesB sub q v = true := by
  induction ps with
  | nil => simp [matchesAny]
  | cons p rest ih => simp [matchesAny, Bool.or_eq_true, ih]

omit [DecidableEq C] in
/-- Membership form of `matchesAll`. -/
lemma matchesAll_iff (sub : C → C → Bool) (ps : List (Pred C)) (v : StateVar C) :
    matchesAll sub ps v = true ↔ ∀ q ∈ ps, matchesB sub q v = true := by
  induction ps with
  | nil => simp [matchesAll]
  | cons p rest ih => simp [matchesAll, Bool.and_eq_true, ih]

/-- Membership form of `allDisjoint`. -/
lemma allDisjoint_mem (sub : C → C → Bool) {ps : List (Pred C)} {p2 q : Pred C}
    (h : allDisjoint sub ps p2 = true) (hq : q ∈ ps) :
    disjointPred sub q p2 = true ∨ disjointPred sub p2 q = true := by
  induction ps with
  | nil => cases hq
  | cons p rest ih =>
    rw [show allDisjoint sub (p :: rest) p2 =
        ((disjointPred sub p p2 || disjointPred sub p2 p) && allDisjoint sub rest p2)
      from by simp [allDisjoint]] at h
    rcases (show (disjointPred sub p p2 || disjointPred sub p2 p) = true ∧
        allDisjoint sub rest p2 = true by simpa using h) with ⟨h1, h2⟩
    rcases List.mem_cons.mp hq with hqp | hqrest
    · subst hqp; simpa using h1
    · exact ih h2 hqrest

/-- Existential form of `anyDisjoint`. -/
lemma anyDisjoint_exists (sub : C → C → Bool) {ps : List (Pred C)} {p2 : Pred C}
    (h : anyDisjoint sub ps p2 = true) :
    ∃ q ∈ ps, disjointPred sub q p2 = true ∨ disjointPred sub p2 q = true := by
  induction ps with
  | nil => simp [anyDisjoint] at h
  | cons p rest ih =>
    rw [show anyDisjoint sub (p :: rest) p2 =
        ((disjointPred sub p p2 || disjointPred sub p2 p) || anyDisjoint sub rest p2)
      from by simp [anyDisjoint]] at h
    rcases (show (disjointPred sub p p2 = true ∨ disjointPred sub p2 p = true) ∨
        anyDisjoint sub rest p2 = true by simpa using h) with h1 | h2
    · exact ⟨p, List.mem_cons_self p rest, h1⟩
    · obtain ⟨q, hqmem, hq⟩ := ih h2
      exact ⟨q, List.mem_cons_of_mem p hqmem, hq⟩

/-- The hypothesis forced by the counterexample below: the class
hierarchy is single-inheritance, i.e. two superclasses of one class are
always comparable.  Multiple inheritance violates it. -/
def SingleInheritance (sub : C → C → Bool) : Prop :=
  ∀ c a b : C, sub c a = true → sub c b = true →
    sub a b = true ∨ sub b a = true

/-- Soundness of the one-directional predicate check on
single-inheritance hierarchies, by strong induction on the combined
size of the two predicates. -/
lemma disjointPred_sound (sub : C → C → Bool)
    (hsingle : SingleInheritance sub) :
    ∀ n : Nat, ∀ p1 p2 : Pred C, sizeOf p1 + sizeOf p2 ≤ n →
      disjointPred sub p1 p2 = true →
      ∀ v : StateVar C,
        ¬(matchesB sub p1 v = true ∧ matchesB sub p2 v = true) := by
  intro n
  induction n using Nat.strong_induction_on with
  | _ n ih =>
    rintro p1 p2 hsz hdis v ⟨hm1, hm2⟩
    cases p1 with
    | nothing => simp [matchesB] at hm1
    | everything =>
      cases p2 with
      | nothing => simp [matchesB] at hm2
      | everything => simp [disjointPred, isNothingPred] at hdis
      | neg q => simp [disjointPred, isNothingPred] at hdis
      | anyOf ps => simp [disjointPred, isNothingPred] at hdis
      | allOf ps => simp [disjointPred, isNothingPred] at hdis
      | ofType t => simp [disjointPred, isNothingPred] at hdis
      | withTag s => simp [disjointPred, isNothingPred] at hdis
    | neg q =>
      have hq : q = p2 := by simpa [disjointPred] using hdis
      subst hq
      simp only [matchesB, Bool.not_eq_true'] at hm1
      simp [hm1] at hm2
    | anyOf ps =>
      have hall : allDisjoint sub ps p2 = true := by
        simpa [disjointPred] using hdis
      obtain ⟨q, hqmem, hqmatch⟩ :=
        (matchesAny_iff sub ps v).mp (by simpa [matchesB] using hm1)
      have hsq : sizeOf q < sizeOf ps := List.sizeOf_lt_of_mem hqmem
      have hsa : sizeOf (Pred.anyOf ps) = 1 + sizeOf ps := by simp
      rcases allDisjoint_mem sub hall hqmem with hd | hd
      · exact ih (sizeOf q + sizeOf p2) (by omega) q p2 le_rfl hd v
          ⟨hqmatch, hm2⟩
      · exact ih (sizeOf p2 + sizeOf q) (by omega) p2 q le_rfl hd v
          ⟨hm2, hqmatch⟩
    | allOf ps =>
      have hany : anyDisjoint sub ps p2 = true := by
        simpa [disjointPred] using hdis
      obtain ⟨q, hqmem, hd⟩ := anyDisjoint_exists sub hany
      have hqmatch : matchesB sub q v = true :=
        (matchesAll_iff sub ps v).mp (by simpa [matchesB] using hm1) q hqmem
      have hsq : sizeOf q < sizeOf ps := List.sizeOf_lt_of_mem hqmem
      have hsa : sizeOf (Pred.allOf ps) = 1 + sizeOf ps := by simp
      rcases hd with hd | hd
      · exact ih (sizeOf q + sizeOf p2) (by omega) q p2 le_rfl hd v
          ⟨hqmatch, hm2⟩
      · exact ih (sizeOf p2 + sizeOf q) (by omega) p2 q le_rfl hd v
          ⟨hm2, hqmatch⟩
    | ofType t1 =>
      cases p2 with
      | ofType t2 =>
        have hd : sub t1 t2 = false ∧ sub t2 t1 = false := by
          simpa [disjointPred, Bool.and_eq_true, Bool.not_eq_true'] using hdis
        have h1 : sub v.cls t1 = true := by simpa [matchesB] using hm1
        have h2 : sub v.cls t2 = true := by simpa [matchesB] using hm2
        rcases hsingle v.cls t1 t2 h1 h2 with h | h
        · rw [hd.1] at h; cases h
        · rw [hd.2] at h; cases h
      | nothing => simp [matchesB] at hm2
      | everything => simp [disjointPred] at hdis
      | neg q => simp [disjointPred] at hdis
      | anyOf ps => simp [disjointPred] at hdis
      | allOf ps => simp [disjointPred] at hdis
      | withTag s => simp [disjointPred] at hdis
    | withTag s1 =>
      cases p2 with
      | withTag s2 =>
        have hd : s1 ≠ s2 := by simpa [disjointPred] using hdis
        have h1 : v.tag = some s1 := by simpa [matchesB] using hm1
        have h2 : v.tag = some s2 := by simpa [matchesB] using hm2
        rw [h1] at h2
        exact hd (Option.some.inj h2)
      | nothing => simp [matchesB] at hm2
      | everything => simp [disjointPred] at hdis
      | neg q => simp [disjointPred] at hdis
      | anyOf ps => simp [disjointPred] at hdis
      | allOf ps => simp [disjointPred] at hdis
      | ofType t => simp [disjointPred] at hdis

end FilterAlgebra

/-- A multiple-inheritance class hierarchy on three classes `A = 0`,
`B = 1`, `SubAB = 2`: `issubclass` holds reflexively and for
`SubAB ≤ A`, `SubAB ≤ B`, while `A` and `B` are incomparable — exactly
the relation produced by the Python classes `A`, `B` and
`class SubAB(A, B)`. -/
def mhSub : Fin 3 → Fin 3 → Bool := fun a b =>
  a == b || (a == 2 && (b == 0 || b == 1))

/-- C2 counterexample: the conservative disjointness check is not sound
for every realizable class hierarchy.  With multiple inheritance,
`OfType A` and `OfType B` are reported certainly disjoint because `A`
and `B` are not in a subclass relation, yet a variable of class
`SubAB(A, B)` is matched by both filters — a false positive. -/
theorem disjoint_filters_false_positive :
    ¬(∀ (p1 p2 : Pred (Fin 3)) (v : StateVar (Fin 3)),
        disjointFilters mhSub p1 p2 = true →
        ¬(matchesB mhSub p1 v = true ∧ matchesB mhSub p2 v = true)) := by
  intro hclaim
  refine hclaim (.ofType 0) (.ofType 1) ⟨2, none⟩ ?_ ⟨?_, ?_⟩
  · simp only [disjointFilters, disjointPred]
    decide
  · simp only [matchesB]
    decide
  · simp only [matchesB]
    decide

/-- C2 (amended): soundness of the conservative disjointness check used
by `merge_vectorized_axes`, provided the class hierarchy is
single-inheritance: whenever `_are_certainly_disjoint_filters` returns
`True` (via combinator decomposition: `Nothing`; `Everything` vs
`Nothing`; negation of the other operand; `Any`/`All` distribution over
sub-predicates; `OfType` pairs whose types are not in a subclass
relation; `WithTag` pairs with distinct tags — tried in both operand
orders), no state variable is matched by both filters. -/
theorem disjoint_filters_sound {C : Type} [DecidableEq C]
    (sub : C → C → Bool) (hsingle : SingleInheritance sub)
    (f1 f2 : Pred C) (hdis : disjointFilters sub f1 f2 = true)
    (v : StateVar C) :
    ¬(matchesB sub f1 v = true ∧ matchesB sub f2 v = true) := by
  rcases (show disjointPred sub f1 f2 = true ∨ disjointPred sub f2 f1 = true by
    simpa [disjointFilters] using hdis) with h | h
  · exact disjointPred_sound sub hsingle (sizeOf f1 + sizeOf f2) f1 f2
      le_rfl h v
  · rintro ⟨h1, h2⟩
    exact disjointPred_sound sub hsingle (sizeOf f2 + sizeOf f1) f2 f1
      le_rfl h v ⟨h2, h1⟩

/-- A single-inheritance (discrete) hierarchy on two classes. -/
def chSub : Fin 2 → Fin 2 → Bool := fun a b => a == b

/-- Witness for `disjoint_filters_sound` on a concrete
single-inheritance hierarchy and a concrete disjoint pair of tag
filters. -/
theorem disjoint_filters_sound_witness :
    ¬(matchesB chSub (.withTag "a") ⟨0, none⟩ = true ∧
      matchesB chSub (.withTag "b") ⟨0, none⟩ = true) :=
  disjoint_filters_sound chSub (by unfold SingleInheritance; decide)
    (.withTag "a") (.withTag "b")
    (by simp only [disjointFilters, disjointPred]; decide) ⟨0, none⟩

/-!
## Module state and the in-place state-vectorization entry points
(`vectorize_module`, `tag_module_state`, `untag_module_state` of
`core/module_utils.py`).

A module's state container is a list of leaves, each carrying the
variable metadata used by filters and either a `Field` (whose shape
metadata is its coordinate) or a non-`Field` value.  The in-place
mutation is modelled by returning the observable container together
with an error flag: on error the returned container is the state at the
moment the exception is raised.
-/

/-- A state leaf: a `Field` carrying its coordinate, or any other
(non-`Field`) value. -/
inductive Leaf where
  | fieldLeaf (coord : Coordinate)
  | nonField
deriving DecidableEq

/-- Composition of exactly two coordinates,
`cx.compose_coordinates(a, b)`. -/
def compose2 (a b : Coordinate) : Coordinate := compose_coordinates [a, b]

/-- The `broadcast` closure of `vectorize_module`: a `Field` is
broadcast to `compose_coordinates(coord, x.coordinate)`; any non-`Field`
leaf raises. -/
def broadcastLeaf (coord : Coordinate) : Leaf → Option Leaf
  | .fieldLeaf c => some (.fieldLeaf (compose2 coord c))
  | .nonField => none

section ModuleState

variable {C : Type} [DecidableEq C]

/-- One iteration of the `vectorize_module` loop for a single spec entry
`(k, coord)`: `jax.tree.map(broadcast, nnx.state(module, k))` computes
the broadcast of every leaf matched by `k` (raising on the first
non-`Field` leaf, before any update), then `nnx.update` writes the
result back.  `none` models the raise: no leaf has been updated for this
entry. -/
def applySpec (sub : C → C → Bool) (coord : Coordinate) (f : Pred C) :
    List (StateVar C × Leaf) → Option (List (StateVar C × Leaf))
  | [] => some []
  | e :: rest =>
    if matchesB sub f e.1 then
      match broadcastLeaf coord e.2, applySpec sub coord f rest with
      | some l, some rest' => some ((e.1, l) :: rest')
      | _, _ => none
    else
      match applySpec sub coord f rest with
      | some rest' => some (e :: rest')
      | none => none

/-- `vectorize_module(module, vectorization_specs)`: iterates over the
spec entries, updating the module state in place after each entry.  The
result is the observable state container together with an error flag;
when an entry raises, the updates performed by the preceding entries
remain applied. -/
def vectorizeModule (sub : C → C → Bool) :
    List (StateVar C × Leaf) → List (Pred C × Coordinate) →
      List (StateVar C × Leaf) × Bool
  | st, [] => (st, false)
  | st, (f, coord) :: rest =>
    match applySpec sub coord f st with
    | none => (st, true)
    | some st' => vectorizeModule sub st' rest

/-- The successful application of a prefix of spec entries, in order. -/
def applyMany (sub : C → C → Bool) :
    List (StateVar C × Leaf) → List (Pred C × Coordinate) →
      Option (List (StateVar C × Leaf))
  | st, [] => some st
  | st, (f, coord) :: rest =>
    match applySpec sub coord f st with
    | none => none
    | some st' => applyMany sub st' rest

end ModuleState

/-- A trivial one-class hierarchy used for concrete instances. -/
def flatSub : Fin 1 → Fin 1 → Bool := fun _ _ => false

/-- A concrete module state: one `Field` leaf tagged "a" and one
non-`Field` leaf tagged "b". -/
def exState : List (StateVar (Fin 1) × Leaf) :=
  [(⟨0, some "a"⟩, .fieldLeaf (.sizedAxis "x" 2)), (⟨0, some "b"⟩, .nonField)]

/-- A concrete two-entry vectorization spec whose first entry succeeds
and whose second entry raises (it selects the non-`Field` leaf). -/
def exSpecs : List (Pred (Fin 1) × Coordinate) :=
  [(.withTag "a", .sizedAxis "v" 3), (.withTag "b", .sizedAxis "v" 3)]

/-- C3 counterexample: a `vectorize_module` call that raises is not
atomic.  On `exState` with the two-entry spec `exSpecs`, the first
entry's broadcast is applied and then the second entry raises on a
non-`Field` leaf, so the caller observes a partially updated state
container different from the initial one. -/
theorem vectorize_module_not_atomic :
    (vectorizeModule flatSub exState exSpecs).2 = true ∧
    (vectorizeModule flatSub exState exSpecs).1 ≠ exState := by
  constructor
  · decide
  · decide

/-- C3 (amended): state vectorization is atomic per spec entry, not per
call: when a `vectorize_module` call raises, the specs form a prefix
that was fully applied, followed by the failing entry (whose own updates
are all-or-nothing and here produced none), and the observable state is
exactly the result of the applied prefix.  In particular a call with a
single spec entry leaves the state container unchanged when it
raises. -/
theorem vectorize_module_per_entry_atomic {C : Type} [DecidableEq C]
    (sub : C → C → Bool) :
    (∀ st specs st', vectorizeModule sub st specs = (st', true) →
      ∃ pfx f c sfx, specs = pfx ++ (f, c) :: sfx ∧
        applyMany sub st pfx = some st' ∧ applySpec sub c f st' = none) ∧
    (∀ st f c, (vectorizeModule sub st [(f, c)]).2 = true →
      (vectorizeModule sub st [(f, c)]).1 = st) := by
  constructor
  · intro st specs
    induction specs generalizing st with
    | nil =>
      intro st' h
      simp [vectorizeModule] at h
    | cons e rest ih =>
      intro st' h
      obtain ⟨f, c⟩ := e
      rcases happ : applySpec sub c f st with _ | st1
      · rw [show vectorizeModule sub st ((f, c) :: rest) = (st, true) from by
          simp [vectorizeModule, happ]] at h
        have hst : st = st' := congrArg Prod.fst h
        subst hst
        exact ⟨[], f, c, rest, rfl, by simp [applyMany], happ⟩
      · rw [show vectorizeModule sub st ((f, c) :: rest) =
            vectorizeModule sub st1 rest from by
          simp [vectorizeModule, happ]] at h
        obtain ⟨pfx, f', c', sfx, hspec, hmany, hfail⟩ := ih st1 st' h
        exact ⟨(f, c) :: pfx, f', c', sfx, by rw [hspec, List.cons_append],
          by simp [applyMany, happ, hmany], hfail⟩
  · intro st f c h
    rcases happ : applySpec sub c f st with _ | st1
    · simp [vectorizeModule, happ]
    · rw [show vectorizeModule sub st [(f, c)] = (st1, false) from by
        simp [vectorizeModule, happ]] at h
      simp at h

/-- Witness for `vectorize_module_per_entry_atomic`: a single-entry spec
that raises leaves the concrete state container unchanged. -/
theorem vectorize_module_per_entry_atomic_witness :
    (vectorizeModule flatSub exState
        [(Pred.withTag "b", Coordinate.sizedAxis "v" 3)]).1 = exState :=
  (vectorize_module_per_entry_atomic flatSub).2 exState (.withTag "b")
    (.sizedAxis "v" 3) (by decide)

/-- Error kinds raised by `tag_module_state` / `untag_module_state`:
`valueErr` is the explicit `ValueError` of the axis-membership
validation; `typeErr` is the `TypeError` raised by
`functools.reduce(operator.or_, ...)` over the values of an *empty*
`vectorized_axes` mapping, before the validation is reached. -/
inductive ModuleStateErr where
  | typeErr
  | valueErr
deriving DecidableEq

/-- The union of the axes of all coordinates in `vectorized_axes`
(`functools.reduce(operator.or_, (set(v.axes) for v in values))`; only
membership matters, so the union is a list). -/
def unionAxesList {C : Type} (va : List (Pred C × Coordinate)) :
    List Coordinate :=
  va.flatMap fun kv => axes kv.2

/-- The leaf-level effect of `cx.tag(state, tag_axis)` on a `Field`
(abstract here: the claims below concern only validation order and
atomicity, not the tagging itself). -/
def tagLeaf (tagAxis : Coordinate) : Leaf → Leaf
  | .fieldLeaf c => .fieldLeaf (compose2 tagAxis c)
  | .nonField => .nonField

/-- The leaf-level effect of `cx.untag(state, untag_axis)` on a `Field`
(abstract here, as for `tagLeaf`). -/
def untagLeaf (untagAxis : Coordinate) : Leaf → Leaf
  | .fieldLeaf c =>
    .fieldLeaf (.cartesianProduct
      ((axes c).filter fun ax => !((axes untagAxis).contains ax)))
  | .nonField => .nonField

section TagUntag

variable {C : Type} [DecidableEq C]

/-- `nnx.update` over the leaves selected by one state filter. -/
def applyFiltered (sub : C → C → Bool) (st : List (StateVar C × Leaf))
    (f : Pred C) (g : Leaf → Leaf) : List (StateVar C × Leaf) :=
  st.map fun e => if matchesB sub f e.1 then (e.1, g e.2) else e

/-- The per-filter loop shared by `tag_module_state` and
`untag_module_state`: for each `(state_filter, coord)` entry, the axes of
`coordinate` present among `coord.axes` are composed and applied (via
`cx.tag`/`cx.untag`, here the given leaf transform) to the state selected
by the filter; entries with no common axis are skipped. -/
def tagUntagLoop (sub : C → C → Bool) (leafOp : Coordinate → Leaf → Leaf)
    (coordinate : Coordinate) (va : List (Pred C × Coordinate))
    (st : List (StateVar C × Leaf)) : List (StateVar C × Leaf) :=
  va.foldl
    (fun s kv =>
      let comps := (axes coordinate).filter fun ax => (axes kv.2).contains ax
      if comps.isEmpty then s
      else applyFiltered sub s kv.1 (leafOp (compose_coordinates comps)))
    st

/-- `tag_module_state(module, coordinate, vectorized_axes)`: on an empty
mapping the reduction of axis sets raises `TypeError`; otherwise a
`ValueError` is raised when some axis of `coordinate` is not present
among the axes of any coordinate in `vectorized_axes`; both checks
happen before any state is read or updated.  The result is the
observable state container and the error, if any. -/
def tagModuleState (sub : C → C → Bool) (st : List (StateVar C × Leaf))
    (coordinate : Coordinate) (va : List (Pred C × Coordinate)) :
    List (StateVar C × Leaf) × Option ModuleStateErr :=
  match va with
  | [] => (st, some .typeErr)
  | _ :: _ =>
    if (axes coordinate).any (fun ax => !((unionAxesList va).contains ax)) then
      (st, some .valueErr)
    else
      (tagUntagLoop sub tagLeaf coordinate va st, none)

/-- `untag_module_state(module, coordinate, vectorized_axes)`: identical
validation structure to `tag_module_state`, applying `cx.untag`. -/
def untagModuleState (sub : C → C → Bool) (st : List (StateVar C × Leaf))
    (coordinate : Coordinate) (va : List (Pred C × Coordinate)) :
    List (StateVar C × Leaf) × Option ModuleStateErr :=
  match va with
  | [] => (st, some .typeErr)
  | _ :: _ =>
    if (axes coordinate).any (fun ax => !((unionAxesList va).contains ax)) then
      (st, some .valueErr)
    else
      (tagUntagLoop sub untagLeaf coordinate va st, none)

end TagUntag

/-- C10 counterexample: with an *empty* `vectorized_axes` mapping and a
coordinate with an axis (so the axis is vacuously absent from every
coordinate of the mapping), `tag_module_state` and `untag_module_state`
do not raise the claimed `ValueError` — `functools.reduce` over the
empty sequence of axis sets raises a `TypeError` first. -/
theorem tag_module_state_empty_mapping_type_error :
    (∃ ax ∈ axes (Coordinate.sizedAxis "x" 2),
        ax ∉ unionAxesList ([] : List (Pred (Fin 1) × Coordinate))) ∧
    (tagModuleState flatSub exState (.sizedAxis "x" 2) []).2 =
        some .typeErr ∧
    (untagModuleState flatSub exState (.sizedAxis "x" 2) []).2 =
        some .typeErr ∧
    ModuleStateErr.typeErr ≠ ModuleStateErr.valueErr := by
  refine ⟨⟨.sizedAxis "x" 2, by decide, by decide⟩, by decide, by decide,
    by decide⟩

/-- C10 (amended): for a *non-empty* `vectorized_axes` mapping,
`tag_module_state` and `untag_module_state` raise `ValueError` exactly
when the given coordinate contains an axis that is not present among
the axes of any coordinate in `vectorized_axes`; this validation is
performed before any module state is read or updated, so on any error
(including the `TypeError` raised on an empty mapping) the module's
state is unchanged. -/
theorem tag_untag_module_state_validation {C : Type} [DecidableEq C]
    (sub : C → C → Bool) :
    (∀ (st : List (StateVar C × Leaf)) coordinate va, va ≠ [] →
      (((tagModuleState sub st coordinate va).2 = some .valueErr) ↔
        ∃ ax ∈ axes coordinate, ax ∉ unionAxesList va)) ∧
    (∀ (st : List (StateVar C × Leaf)) coordinate va, va ≠ [] →
      (((untagModuleState sub st coordinate va).2 = some .valueErr) ↔
        ∃ ax ∈ axes coordinate, ax ∉ unionAxesList va)) ∧
    (∀ (st : List (StateVar C × Leaf)) coordinate va,
      (tagModuleState sub st coordinate va).2.isSome →
        (tagModuleState sub st coordinate va).1 = st) ∧
    (∀ (st : List (StateVar C × Leaf)) coordinate va,
      (untagModuleState sub st coordinate va).2.isSome →
        (untagModuleState sub st coordinate va).1 = st) ∧
    (∀ (st : List (StateVar C × Leaf)) coordinate,
      tagModuleState sub st coordinate [] = (st, some .typeErr)) ∧
    (∀ (st : List (StateVar C × Leaf)) coordinate,
      untagModuleState sub st coordinate [] = (st, some .typeErr)) := by
  have hmem : ∀ (coordinate : Coordinate) (va : List (Pred C × Coordinate)),
      ((axes coordinate).any fun ax => !((unionAxesList va).contains ax)) = true ↔
        ∃ ax ∈ axes coordinate, ax ∉ unionAxesList va := by
    intro coordinate va
    simp [List.any_eq_true]
  refine ⟨?_, ?_, ?_, ?_, ?_, ?_⟩
  · rintro st coordinate va hne
    match va with
    | [] => exact absurd rfl hne
    | kv :: rest =>
      rw [tagModuleState]
      by_cases hcond :
          ((axes coordinate).any
            fun ax => !((unionAxesList (kv :: rest)).contains ax)) = true
      · rw [if_pos hcond]
        simpa using (hmem coordinate (kv :: rest)).mp hcond
      · rw [if_neg hcond]
        simp only [Option.some.injEq]
        constructor
        · intro h; cases h
        · intro h
          exact absurd ((hmem coordinate (kv :: rest)).mpr h) hcond
  · rintro st coordinate va hne
    match va with
    | [] => exact absurd rfl hne
    | kv :: rest =>
      rw [untagModuleState]
      by_cases hcond :
          ((axes coordinate).any
            fun ax => !((unionAxesList (kv :: rest)).contains ax)) = true
      · rw [if_pos hcond]
        simpa using (hmem coordinate (kv :: rest)).mp hcond
      · rw [if_neg hcond]
        simp only [Option.some.injEq]
        constructor
        · intro h; cases h
        · intro h
          exact absurd ((hmem coordinate (kv :: rest)).mpr h) hcond
  · intro st coordinate va
    match va with
    | [] => intro _; rfl
    | kv :: rest =>
      rw [tagModuleState]
      by_cases hcond :
          ((axes coordinate).any
            fun ax => !((unionAxesList (kv :: rest)).contains ax)) = true
      · rw [if_pos hcond]; intro _; rfl
      · rw [if_neg hcond]; intro h; simp at h
  · intro st coordinate va
    match va with
    | [] => intro _; rfl
    | kv :: rest =>
      rw [untagModuleState]
      by_cases hcond :
          ((axes coordinate).any
            fun ax => !((unionAxesList (kv :: rest)).contains ax)) = true
      · rw [if_pos hcond]; intro _; rfl
      · rw [if_neg hcond]; intro h; simp at h
  · intro st coordinate; rfl
  · intro st coordinate; rfl

/-- Witness for `tag_untag_module_state_validation`: a concrete missing
axis raises `ValueError` with the state unchanged. -/
theorem tag_untag_module_state_validation_witness :
    ((tagModuleState flatSub exState (.sizedAxis "x" 2)
        [(Pred.everything, Coordinate.sizedAxis "y" 3)]).2 =
      some .valueErr) ∧
    (tagModuleState flatSub exState (.sizedAxis "x" 2)
        [(Pred.everything, Coordinate.sizedAxis "y" 3)]).1 = exState :=
  ⟨((tag_untag_module_state_validation flatSub).1 exState (.sizedAxis "x" 2)
      [(Pred.everything, Coordinate.sizedAxis "y" 3)] (by decide)).mpr
    ⟨.sizedAxis "x" 2, by decide, by decide⟩,
   (tag_untag_module_state_validation flatSub).2.2.1 exState
      (.sizedAxis "x" 2) [(Pred.everything, Coordinate.sizedAxis "y" 3)]
      (by decide)⟩

/-!
## `merge_vectorized_axes` of `core/module_utils.py`.

A vectorization spec is a mapping from state filters to coordinates with
an optional wildcard (`...` / Ellipsis) entry, modelled as an
association list plus an optional wildcard coordinate.
-/

/-- A vectorization spec: filter-keyed entries plus the optional
wildcard (Ellipsis) coordinate. -/
structure VSpec (C : Type) where
  entries : List (Pred C × Coordinate)
  wild : Option Coordinate
deriving DecidableEq

section Merge

variable {C : Type} [DecidableEq C]

/-- Dictionary lookup by filter key (first match). -/
def findCoord (k : Pred C) : List (Pred C × Coordinate) → Option Coordinate
  | [] => none
  | e :: rest => if k = e.1 then some e.2 else findCoord k rest

/-- The keys present only in the head spec, in head order
(`diff_head_keys`). -/
def headOnlyKeys (hs ts : VSpec C) : List (Pred C) :=
  hs.entries.filterMap fun e =>
    if (findCoord e.1 ts.entries).isSome then none else some e.1

/-- The keys present only in the tail spec, in tail order
(`diff_tail_keys`). -/
def tailOnlyKeys (hs ts : VSpec C) : List (Pred C) :=
  ts.entries.filterMap fun e =>
    if (findCoord e.1 hs.entries).isSome then none else some e.1

/-- `itertools.product(diff_head_keys, diff_tail_keys)`. -/
def overlapPairs (hs ts : VSpec C) : List (Pred C × Pred C) :=
  (headOnlyKeys hs ts).flatMap fun k1 =>
    (tailOnlyKeys hs ts).map fun k2 => (k1, k2)

/-- `merge_vectorized_axes(vectorized_axes_head, vectorized_axes_tail)`:
pops the wildcard from each spec (defaulting to `Scalar`), composes
coordinates key-wise — common keys as head-then-tail, head-only keys
with the tail wildcard, tail-only keys after the head wildcard — and
fails, naming the first potentially overlapping pair in product order,
when some head-only/tail-only key pair cannot be proven disjoint.  The
wildcard is put back iff either input had one, as the composition of
both wildcards. -/
def mergeVectorizedAxes (sub : C → C → Bool) (hs ts : VSpec C) :
    Except (Pred C × Pred C) (VSpec C) :=
  let hW := hs.wild.getD .scalar
  let tW := ts.wild.getD .scalar
  let common := hs.entries.filterMap fun e =>
    match findCoord e.1 ts.entries with
    | some c2 => some (e.1, compose2 e.2 c2)
    | none => none
  let diffHead := hs.entries.filterMap fun e =>
    if (findCoord e.1 ts.entries).isSome then none
    else some (e.1, compose2 e.2 tW)
  let diffTail := ts.entries.filterMap fun e =>
    if (findCoord e.1 hs.entries).isSome then none
    else some (e.1, compose2 hW e.2)
  match (overlapPairs hs ts).find?
      (fun pr => !(disjointFilters sub pr.1 pr.2)) with
  | some pr => .error pr
  | none => .ok
      ⟨common ++ diffHead ++ diffTail,
       if hs.wild.isSome || ts.wild.isSome then some (compose2 hW tW)
       else none⟩

/-- Lookup prefers the left part of an append when it hits. -/
lemma findCoord_append_left {k : Pred C} {l1 l2 : List (Pred C × Coordinate)}
    {c : Coordinate} (h : findCoord k l1 = some c) :
    findCoord k (l1 ++ l2) = some c := by
  induction l1 with
  | nil => simp [findCoord] at h
  | cons e rest ih =>
    rw [List.cons_append, findCoord]
    rw [findCoord] at h
    by_cases hk : k = e.1
    · rwa [if_pos hk] at h ⊢
    · rw [if_neg hk] at h ⊢
      exact ih h

/-- Lookup falls through to the right part of an append. -/
lemma findCoord_append_right {k : Pred C} {l1 l2 : List (Pred C × Coordinate)}
    (h : findCoord k l1 = none) :
    findCoord k (l1 ++ l2) = findCoord k l2 := by
  induction l1 with
  | nil => simp
  | cons e rest ih =>
    rw [List.cons_append, findCoord]
    rw [findCoord] at h
    by_cases hk : k = e.1
    · rw [if_pos hk] at h; cases h
    · rw [if_neg hk] at h ⊢
      exact ih h

/-- A key-preserving `filterMap` cannot contain a key absent from the
underlying list. -/
lemma findCoord_filterMap_none {k : Pred C}
    {l : List (Pred C × Coordinate)}
    {F : Pred C × Coordinate → Option (Pred C × Coordinate)}
    (hF : ∀ e r, F e = some r → r.1 = e.1)
    (h : findCoord k l = none) : findCoord k (l.filterMap F) = none := by
  induction l with
  | nil => simp [findCoord]
  | cons e rest ih =>
    rw [findCoord] at h
    by_cases hk : k = e.1
    · rw [if_pos hk] at h; cases h
    · rw [if_neg hk] at h
      rw [List.filterMap_cons]
      rcases hFe : F e with _ | r
      · exact ih h
      · rw [findCoord, if_neg (by rw [hF e r hFe]; exact hk)]
        exact ih h

/-- Lookup in the `common` part: a key present in both specs maps to
the head-then-tail composition. -/
lemma findCoord_common {k : Pred C} {c1 c2 : Coordinate}
    {hsl tsl : List (Pred C × Coordinate)}
    (h1 : findCoord k hsl = some c1) (h2 : findCoord k tsl = some c2) :
    findCoord k (hsl.filterMap fun e =>
      match findCoord e.1 tsl with
      | some c => some (e.1, compose2 e.2 c)
      | none => none) = some (compose2 c1 c2) := by
  induction hsl with
  | nil => simp [findCoord] at h1
  | cons e rest ih =>
    rw [findCoord] at h1
    rw [List.filterMap_cons]
    by_cases hk : k = e.1
    · rw [if_pos hk] at h1
      rw [show findCoord e.1 tsl = some c2 from hk ▸ h2]
      rw [findCoord, if_pos hk, Option.some.inj h1]
    · rw [if_neg hk] at h1
      rcases hFe : findCoord e.1 tsl with _ | c
      · exact ih h1
      · rw [findCoord, if_neg hk]
        exact ih h1

/-- Lookup in the `diff_head` part: a head-only key maps to its head
coordinate composed with the tail wildcard. -/
lemma findCoord_diffHead {k : Pred C} {c1 : Coordinate} {tW : Coordinate}
    {hsl tsl : List (Pred C × Coordinate)}
    (h1 : findCoord k hsl = some c1) (h2 : findCoord k tsl = none) :
    findCoord k (hsl.filterMap fun e =>
      if (findCoord e.1 tsl).isSome then none
      else some (e.1, compose2 e.2 tW)) = some (compose2 c1 tW) := by
  induction hsl with
  | nil => simp [findCoord] at h1
  | cons e rest ih =>
    rw [findCoord] at h1
    rw [List.filterMap_cons]
    by_cases hk : k = e.1
    · rw [if_pos hk] at h1
      rw [show findCoord e.1 tsl = none from hk ▸ h2]
      simp only [Option.isSome_none, Bool.false_eq_true, if_false]
      rw [findCoord, if_pos hk, Option.some.inj h1]
    · rw [if_neg hk] at h1
      rcases hFe : findCoord e.1 tsl with _ | c
      · simp only [Option.isSome_none, Bool.false_eq_true, if_false]
        rw [findCoord, if_neg hk]
        exact ih h1
      · simp only [Option.isSome_some, if_true]
        exact ih h1

/-- Lookup in the `diff_tail` part: a tail-only key maps to the head
wildcard composed before its tail coordinate. -/
lemma findCoord_diffTail {k : Pred C} {c2 : Coordinate} {hW : Coordinate}
    {hsl tsl : List (Pred C × Coordinate)}
    (h1 : findCoord k hsl = none) (h2 : findCoord k tsl = some c2) :
    findCoord k (tsl.filterMap fun e =>
      if (findCoord e.1 hsl).isSome then none
      else some (e.1, compose2 hW e.2)) = some (compose2 hW c2) := by
  induction tsl with
  | nil => simp [findCoord] at h2
  | cons e rest ih =>
    rw [findCoord] at h2
    rw [List.filterMap_cons]
    by_cases hk : k = e.1
    · rw [if_pos hk] at h2
      rw [show findCoord e.1 hsl = none from hk ▸ h1]
      simp only [Option.isSome_none, Bool.false_eq_true, if_false]
      rw [findCoord, if_pos hk, Option.some.inj h2]
    · rw [if_neg hk] at h2
      rcases hFe : findCoord e.1 hsl with _ | c
      · simp only [Option.isSome_none, Bool.false_eq_true, if_false]
        rw [findCoord, if_neg hk]
        exact ih h2
      · simp only [Option.isSome_some, if_true]
        exact ih h2

/-- The `common` part contains no key absent from the tail spec. -/
lemma findCoord_common_none {k : Pred C}
    {hsl tsl : List (Pred C × Coordinate)}
    (h2 : findCoord k tsl = none) :
    findCoord k (hsl.filterMap fun e =>
      match findCoord e.1 tsl with
      | some c => some (e.1, compose2 e.2 c)
      | none => none) = none := by
  induction hsl with
  | nil => simp [findCoord]
  | cons e rest ih =>
    rw [List.filterMap_cons]
    rcases hFe : findCoord e.1 tsl with _ | c
    · exact ih
    · rw [findCoord]
      have hk : k ≠ e.1 := by
        intro hke
        have hcontra : findCoord e.1 tsl = none := by rw [← hke]; exact h2
        rw [hcontra] at hFe
        cases hFe
      rw [if_neg hk]
      exact ih

/-- C4: on every pair of vectorization specs on which
`merge_vectorized_axes` succeeds, the returned mapping composes
coordinates key-wise: keys present in both inputs map to head-then-tail
composition; head-only keys compose their head coordinate with the tail
wildcard (`Scalar` when absent); tail-only keys compose the head
wildcard (`Scalar` when absent) before their tail coordinate; and the
wildcard key appears in the output iff present in at least one input,
mapped to the composition of the two wildcards. -/
theorem merge_vectorized_axes_mapping (sub : C → C → Bool)
    (hs ts m : VSpec C)
    (hok : mergeVectorizedAxes sub hs ts = .ok m) :
    (∀ k c1 c2, findCoord k hs.entries = some c1 →
        findCoord k ts.entries = some c2 →
        findCoord k m.entries = some (compose2 c1 c2)) ∧
    (∀ k c1, findCoord k hs.entries = some c1 →
        findCoord k ts.entries = none →
        findCoord k m.entries = some (compose2 c1 (ts.wild.getD .scalar))) ∧
    (∀ k c2, findCoord k hs.entries = none →
        findCoord k ts.entries = some c2 →
        findCoord k m.entries =
          some (compose2 (hs.wild.getD .scalar) c2)) ∧
    (m.wild = if hs.wild.isSome || ts.wild.isSome
        then some (compose2 (hs.wild.getD .scalar) (ts.wild.getD .scalar))
        else none) := by
  simp only [mergeVectorizedAxes] at hok
  rcases hf : (overlapPairs hs ts).find?
      (fun pr => !(disjointFilters sub pr.1 pr.2)) with _ | pr0
  · rw [hf] at hok
    have hm := Except.ok.inj hok
    subst hm
    refine ⟨?_, ?_, ?_, rfl⟩
    · intro k c1 c2 h1 h2
      exact findCoord_append_left (findCoord_append_left
        (findCoord_common h1 h2))
    · intro k c1 h1 h2
      refine findCoord_append_left ?_
      rw [findCoord_append_right (findCoord_common_none h2)]
      exact findCoord_diffHead h1 h2
    · intro k c2 h1 h2
      have hFc : ∀ (e r : Pred C × Coordinate),
          (match findCoord e.1 ts.entries with
            | some c => some (e.1, compose2 e.2 c)
            | none => none) = some r → r.1 = e.1 := by
        intro e r h
        split at h
        · cases h; rfl
        · cases h
      have hFd : ∀ (e r : Pred C × Coordinate),
          (if (findCoord e.1 ts.entries).isSome then none
            else some (e.1, compose2 e.2 (ts.wild.getD .scalar))) = some r →
            r.1 = e.1 := by
        intro e r h
        split at h
        · cases h
        · cases h; rfl
      rw [findCoord_append_right
        (by rw [findCoord_append_right (findCoord_filterMap_none hFc h1)]
            exact findCoord_filterMap_none hFd h1)]
      exact findCoord_diffTail h1 h2
  · rw [hf] at hok
    cases hok

/-- A head spec whose only key is `Not(Not(Nothing))` — semantically it
matches nothing, but the conservative check cannot decompose it. -/
def semHead : VSpec (Fin 1) :=
  ⟨[(.neg (.neg .nothing), .sizedAxis "a" 2)], none⟩

/-- A tail spec whose only key is `WithTag "x"`. -/
def semTail : VSpec (Fin 1) := ⟨[(.withTag "x", .sizedAxis "b" 3)], none⟩

/-- C5: `merge_vectorized_axes` fails, naming the first unresolved pair
in head-keys-by-tail-keys product order, exactly when some
head-only/tail-only key pair cannot be proven disjoint by the
conservative check — even when the pair is in fact disjoint by deeper
semantics (last conjunct: `Not(Not(Nothing))` matches no variable, so
it is semantically disjoint from `WithTag "x"`, yet the merge
raises); conversely, when every pair is provably disjoint, the merge
succeeds. -/
theorem merge_vectorized_axes_overlap_gate (sub : C → C → Bool)
    (hs ts : VSpec C) :
    (∀ pr, mergeVectorizedAxes sub hs ts = .error pr ↔
        (overlapPairs hs ts).find?
          (fun q => !(disjointFilters sub q.1 q.2)) = some pr) ∧
    (∀ pr, mergeVectorizedAxes sub hs ts = .error pr →
        pr ∈ overlapPairs hs ts ∧ disjointFilters sub pr.1 pr.2 = false) ∧
    ((∃ pr ∈ overlapPairs hs ts, disjointFilters sub pr.1 pr.2 = false) →
        ∃ pr, mergeVectorizedAxes sub hs ts = .error pr) ∧
    ((∀ pr ∈ overlapPairs hs ts, disjointFilters sub pr.1 pr.2 = true) →
        ∃ m, mergeVectorizedAxes sub hs ts = .ok m) ∧
    (mergeVectorizedAxes flatSub semHead semTail =
        .error (.neg (.neg .nothing), .withTag "x") ∧
      ∀ v : StateVar (Fin 1),
        ¬(matchesB flatSub (Pred.neg (.neg .nothing)) v = true ∧
          matchesB flatSub (Pred.withTag "x") v = true)) := by
  have hconc : mergeVectorizedAxes flatSub semHead semTail =
      .error (.neg (.neg .nothing), .withTag "x") := by
    have hd : disjointFilters flatSub (Pred.neg (Pred.neg Pred.nothing))
        (Pred.withTag "x") = false := by
      simp only [disjointFilters, disjointPred]
      decide
    have hfind : (overlapPairs semHead semTail).find?
        (fun q => !(disjointFilters flatSub q.1 q.2)) =
          some (.neg (.neg .nothing), .withTag "x") := by
      rw [show overlapPairs semHead semTail =
        [(Pred.neg (.neg .nothing), Pred.withTag "x")] from rfl]
      exact List.find?_cons_of_pos _ (by
        show (!(disjointFilters flatSub (Pred.neg (.neg .nothing))
          (Pred.withTag "x"))) = true
        rw [hd]
        rfl)
    simp only [mergeVectorizedAxes, hfind]
  rcases hf : (overlapPairs hs ts).find?
      (fun pr => !(disjointFilters sub pr.1 pr.2)) with _ | pr0
  · rcases hmres : mergeVectorizedAxes sub hs ts with pr | mres
    · exfalso
      simp only [mergeVectorizedAxes, hf] at hmres
      exact Except.noConfusion hmres
    refine ⟨?_, ?_, ?_, fun _ => ⟨mres, rfl⟩, hconc, ?_⟩
    · intro pr
      constructor
      · intro h; exact Except.noConfusion h
      · intro h; rw [hf] at h; cases h
    · intro pr h; exact Except.noConfusion h
    · rintro ⟨pr, hmem, hdis⟩
      have := List.find?_eq_none.mp hf pr hmem
      simp only [Bool.not_eq_true', Bool.not_eq_false] at this
      rw [hdis] at this
      cases this
    · rintro v ⟨h1, _⟩
      simp [matchesB] at h1
  · have hmres : mergeVectorizedAxes sub hs ts = .error pr0 := by
      simp only [mergeVectorizedAxes, hf]
    have hmem : pr0 ∈ overlapPairs hs ts := List.mem_of_find?_eq_some hf
    have hdis : disjointFilters sub pr0.1 pr0.2 = false := by
      have := List.find?_some hf
      simpa using this
    refine ⟨?_, ?_, fun _ => ⟨pr0, hmres⟩, ?_, hconc, ?_⟩
    · intro pr
      constructor
      · intro h
        rw [hmres] at h
        rw [← Except.error.inj h]
        exact hf
      · intro h
        rw [hf] at h
        rw [← Option.some.inj h]
        exact hmres
    · intro pr h
      rw [hmres] at h
      rw [← Except.error.inj h]
      exact ⟨hmem, hdis⟩
    · intro hall
      rw [hall pr0 hmem] at hdis
      cases hdis
    · rintro v ⟨h1, _⟩
      simp [matchesB] at h1

/-- Head spec for the mapping witness: one key, present in both. -/
def cmHead : VSpec (Fin 1) := ⟨[(.withTag "a", .sizedAxis "x" 2)], none⟩

/-- Tail spec for the mapping witness: the same key. -/
def cmTail : VSpec (Fin 1) := ⟨[(.withTag "a", .sizedAxis "y" 3)], none⟩

/-- The merged spec for `cmHead`/`cmTail`. -/
def cmMerged : VSpec (Fin 1) :=
  ⟨[(.withTag "a",
     compose2 (.sizedAxis "x" 2) (.sizedAxis "y" 3))], none⟩

/-- Witness for `merge_vectorized_axes_mapping` at concrete specs. -/
theorem merge_vectorized_axes_mapping_witness :
    findCoord (Pred.withTag "a") cmMerged.entries =
      some (compose2 (.sizedAxis "x" 2) (.sizedAxis "y" 3)) :=
  (merge_vectorized_axes_mapping flatSub cmHead cmTail cmMerged rfl).1
    (.withTag "a") (.sizedAxis "x" 2) (.sizedAxis "y" 3)
    (by decide) (by decide)

/-- Head spec for the gate witness: one tag key. -/
def okHead : VSpec (Fin 1) := ⟨[(.withTag "a", .sizedAxis "x" 2)], none⟩

/-- Tail spec for the gate witness: a provably disjoint tag key. -/
def okTail : VSpec (Fin 1) := ⟨[(.withTag "b", .sizedAxis "y" 3)], none⟩

/-- Witness for `merge_vectorized_axes_overlap_gate`: when every
head-only/tail-only pair is provably disjoint, the merge succeeds. -/
theorem merge_vectorized_axes_overlap_gate_witness :
    ∃ m, mergeVectorizedAxes flatSub okHead okTail = .ok m :=
  (merge_vectorized_axes_overlap_gate flatSub okHead okTail).2.2.2.1
    (by
      intro pr hpr
      rw [show overlapPairs okHead okTail =
        [(Pred.withTag "a", Pred.withTag "b")] from rfl] at hpr
      have hpr2 := List.mem_singleton.mp hpr
      subst hpr2
      simp only [disjointFilters, disjointPred]
      decide)

end Merge

/-!
## Field split/combine (`core/field_utils.py`, modelled from the spec).

`split_to_fields` and `combine_fields` are specified in §4.3; the
implementation file is not part of the snapshot (only its test file is),
so both are modelled from the spec and validated against the test cases
below.  A field is represented by its per-axis metadata; for
`combine_fields`, the data along the single extra axis is kept as an
opaque block list so that concatenation order is observable.
-/

/-- The size of a single-axis coordinate (split/combine components). -/
def axisSize : Coordinate → Nat
  | .sizedAxis _ s => s
  | .labeledAxis _ l => l.length
  | .dummyAxis _ s => s
  | _ => 0

/-- One axis of a field: positional with a size, or carrying a
single-axis coordinate. -/
inductive FieldAxis where
  | pos (size : Nat)
  | coordAx (c : Coordinate)
deriving DecidableEq

/-- The size of a field axis. -/
def faSize : FieldAxis → Nat
  | .pos s => s
  | .coordAx c => axisSize c

deriving instance DecidableEq for Except

/-- Errors of `split_to_fields`. -/
inductive SplitErr where
  | noSplitAxis
  | misaligned (target : String)
  | tooManyNewAxes (target : String)
  | sizeMismatch (total splitSize : Nat)
deriving DecidableEq

/-- Modelled from the spec: the split axis of the input field is the
axis that is not among any target's coordinate components (positional
axes are never components). -/
def splitIdx (field : List FieldAxis)
    (targets : List (String × List Coordinate)) : Option Nat :=
  field.findIdx? fun d =>
    match d with
    | .pos _ => true
    | .coordAx c => !((targets.flatMap Prod.snd).contains c)

/-- The components of a target that are not already present among the
field's non-split axes (each target's at most one "new" axis). -/
def newComps (t : List Coordinate) (ns : List FieldAxis) : List Coordinate :=
  t.filter fun c => !(ns.contains (.coordAx c))

/-- Whether the non-new components of a target align exactly with the
non-split coordinate axes of the field. -/
def alignOk (t : List Coordinate) (ns : List FieldAxis) : Bool :=
  decide ((t.filter fun c => ns.contains (.coordAx c)) =
    ns.filterMap fun d =>
      match d with
      | .coordAx c => some c
      | .pos _ => none)

/-- The size a target takes along the split axis: the size of its single
new component, or 1 when it has none. -/
def newSize (t : List Coordinate) (ns : List FieldAxis) : Nat :=
  match newComps t ns with
  | [] => 1
  | [c] => axisSize c
  | _ => 0

/-- Modelled from the spec: `split_to_fields(field, targets)`.  The
split axis is identified, each target's alignment is verified (an
alignment error names the first offending target), at most one new axis
per target is allowed, and the total new-axis size across targets must
equal the split axis's size — failing with a size-mismatch error
reporting both numbers.  The successful result is, per target, the
slice offset and length along the split axis, in target order. -/
def splitToFields (field : List FieldAxis)
    (targets : List (String × List Coordinate)) :
    Except SplitErr (List (String × Nat × Nat)) :=
  match splitIdx field targets with
  | none => .error .noSplitAxis
  | some i =>
    let splitSize := faSize (field.getD i (.pos 0))
    let ns := field.eraseIdx i
    match targets.find? (fun t => !(alignOk t.2 ns)) with
    | some t => .error (.misaligned t.1)
    | none =>
      match targets.find? (fun t => decide (2 ≤ (newComps t.2 ns).length)) with
      | some t => .error (.tooManyNewAxes t.1)
      | none =>
        let total := (targets.map fun t => newSize t.2 ns).sum
        if total = splitSize then
          .ok (targets.foldl
            (fun (acc : Nat × List (String × Nat × Nat)) t =>
              let sz := newSize t.2 ns
              (acc.1 + sz, acc.2 ++ [(t.1, acc.1, sz)]))
            (0, [])).2
        else .error (.sizeMismatch total splitSize)

-- Validation of `splitToFields` against `SplitToFieldsTest`.
example :
    splitToFields
        [.coordAx (.sizedAxis "batch" 3), .coordAx (.labeledAxis "x" [0, 1])]
        [("a", [.labeledAxis "x" [0, 1]]), ("b", [.labeledAxis "x" [0, 1]]),
         ("c", [.labeledAxis "x" [0, 1]])] =
      .ok [("a", 0, 1), ("b", 1, 1), ("c", 2, 1)] := by decide
example :
    splitToFields
        [.coordAx (.sizedAxis "batch" 6), .coordAx (.labeledAxis "x" [0, 1])]
        [("a", [.labeledAxis "x" [0, 1]]),
         ("b", [.sizedAxis "s" 2, .labeledAxis "x" [0, 1]]),
         ("c", [.sizedAxis "d" 3, .labeledAxis "x" [0, 1]])] =
      .ok [("a", 0, 1), ("b", 1, 2), ("c", 3, 3)] := by decide
example :
    splitToFields
        [.pos 5, .coordAx (.sizedAxis "x" 6), .coordAx (.sizedAxis "y" 7)]
        [("a", [.sizedAxis "x" 6, .sizedAxis "y" 7]),
         ("b", [.sizedAxis "s" 2, .sizedAxis "x" 6, .sizedAxis "y" 7]),
         ("c", [.sizedAxis "s" 2, .sizedAxis "x" 6, .sizedAxis "y" 7])] =
      .ok [("a", 0, 1), ("b", 1, 2), ("c", 3, 2)] := by decide
example :
    splitToFields
        [.pos 2, .coordAx (.labeledAxis "x" [0, 1, 2]),
         .coordAx (.labeledAxis "y" [0, 1])]
        [("a", [.sizedAxis "x" 3, .sizedAxis "y" 2]),
         ("b", [.sizedAxis "x" 3, .sizedAxis "y" 2])] =
      .error (.misaligned "a") := by decide
example :
    splitToFields
        [.coordAx (.sizedAxis "batch" 3), .coordAx (.labeledAxis "x" [0, 1])]
        [("a", [.labeledAxis "x" [0, 1]]), ("b", [.labeledAxis "x" [0, 1]])] =
      .error (.sizeMismatch 2 3) := by decide
example :
    splitToFields
        [.coordAx (.sizedAxis "batch" 2),
         .coordAx (.labeledAxis "x" [0, 1, 2, 3, 4, 5, 6])]
        [("a", [.sizedAxis "d" 1, .labeledAxis "x" [0, 1, 2, 3, 4, 5, 6]]),
         ("b", [.sizedAxis "d" 1, .sizedAxis "second_new" 1,
                .labeledAxis "x" [0, 1, 2, 3, 4, 5, 6]])] =
      .error (.tooManyNewAxes "b") := by decide

/-- C8: `split_to_fields` fails with a size-mismatch error reporting
both numbers whenever (the split axis is identified and every target
passes its per-target alignment and at-most-one-new-axis checks but)
the total new-axis size summed across all targets does not equal the
size of the split axis; in particular, on a field of size 3 along the
split axis with targets whose new-axis sizes sum to 2, the failure
cites `(2)` vs `(3)`. -/
theorem split_to_fields_size_mismatch :
    (∀ (field : List FieldAxis) (targets : List (String × List Coordinate))
        (i : Nat),
      splitIdx field targets = some i →
      (∀ t ∈ targets, alignOk t.2 (field.eraseIdx i) = true) →
      (∀ t ∈ targets, (newComps t.2 (field.eraseIdx i)).length ≤ 1) →
      (targets.map fun t => newSize t.2 (field.eraseIdx i)).sum ≠
        faSize (field.getD i (.pos 0)) →
      splitToFields field targets = .error (.sizeMismatch
        ((targets.map fun t => newSize t.2 (field.eraseIdx i)).sum)
        (faSize (field.getD i (.pos 0))))) ∧
    splitToFields
        [.coordAx (.sizedAxis "batch" 3), .coordAx (.labeledAxis "x" [0, 1])]
        [("a", [.labeledAxis "x" [0, 1]]), ("b", [.labeledAxis "x" [0, 1]])] =
      .error (.sizeMismatch 2 3) := by
  constructor
  · intro field targets i hsplit halign hnew hmismatch
    have hf1 : targets.find?
        (fun t => !(alignOk t.2 (field.eraseIdx i))) = none :=
      List.find?_eq_none.mpr fun t ht => by simp [halign t ht]
    have hf2 : targets.find?
        (fun t => decide (2 ≤ (newComps t.2 (field.eraseIdx i)).length)) =
          none :=
      List.find?_eq_none.mpr fun t ht => by
        have := hnew t ht
        simp only [decide_eq_true_eq]
        omega
    simp only [splitToFields, hsplit, hf1, hf2]
    rw [if_neg hmismatch]
  · decide

/-- Witness for `split_to_fields_size_mismatch` at the test's concrete
field and targets. -/
theorem split_to_fields_size_mismatch_witness :
    splitToFields
        [.coordAx (.sizedAxis "batch" 3), .coordAx (.labeledAxis "x" [0, 1])]
        [("a", [.labeledAxis "x" [0, 1]]), ("b", [.labeledAxis "x" [0, 1]])] =
      .error (.sizeMismatch 2 3) :=
  split_to_fields_size_mismatch.1
    [.coordAx (.sizedAxis "batch" 3), .coordAx (.labeledAxis "x" [0, 1])]
    [("a", [.labeledAxis "x" [0, 1]]), ("b", [.labeledAxis "x" [0, 1]])]
    0 (by decide) (by decide) (by decide) (by decide)

/-- A field for `combine_fields`: the optional single extra axis beyond
the aligned dimensions, the aligned dimensions, and the data as the
list of blocks along the extra axis (one block when the axis is
missing). -/
structure MField (B : Type) where
  extra : Option (String × Nat)
  aligned : List (String × Nat)
  blocks : List B
deriving DecidableEq

/-- The extra-axis size of a field; a field missing the extra axis
entirely is treated as having size 1. -/
def extraSize {B : Type} (f : MField B) : Nat :=
  (f.extra.map Prod.snd).getD 1

/-- Shape well-formedness of a field: it has one block per extra-axis
element. -/
def wfField {B : Type} (f : MField B) : Prop :=
  f.blocks.length = extraSize f

/-- Errors of `combine_fields` covered by the model. -/
inductive CombineErr where
  | repeatedDims (names : List String)
  | misaligned (field : String)
deriving DecidableEq

/-- Duplicate-freeness of the alignment dimension names. -/
def nodupNames : List String → Bool
  | [] => true
  | x :: rest => !(rest.contains x) && nodupNames rest

/-- Whether a field's aligned axes are exactly the requested alignment
dimensions (as sets). -/
def alignedWith {B : Type} (f : MField B) (dims : List (String × Nat)) :
    Bool :=
  dims.all (fun d => f.aligned.contains d) &&
    f.aligned.all (fun d => dims.contains d)

/-- The result of `combine_fields`: the length of the new/extra output
axis, the aligned dimensions, and the concatenated blocks. -/
structure CombineOut (B : Type) where
  outSize : Nat
  aligned : List (String × Nat)
  blocks : List B
deriving DecidableEq

/-- Modelled from the spec: `combine_fields(fields, dims_to_align)`.
`dims_to_align` must be duplicate-free; every input field must align
with it, carrying at most one extra axis (enforced by the `MField`
representation); fields missing the extra axis are treated as one block
of size 1, and all blocks are concatenated along the extra axis in the
iteration order of the input mapping. -/
def combineFields {B : Type} (fields : List (String × MField B))
    (dims : List (String × Nat)) : Except CombineErr (CombineOut B) :=
  if nodupNames (dims.map Prod.fst) = false then
    .error (.repeatedDims ((dims.map Prod.fst).filter
      fun n => 2 ≤ (dims.map Prod.fst).count n))
  else
    match fields.find? (fun nf => !(alignedWith nf.2 dims)) with
    | some nf => .error (.misaligned nf.1)
    | none =>
      let blocks := fields.flatMap fun nf => nf.2.blocks
      .ok ⟨blocks.length, dims, blocks⟩

-- Validation of `combineFields` against `CombineFieldsTest` (blocks are
-- numbered so concatenation order is visible).
example :
    combineFields
        [("a", ⟨some ("z", 2), [("x", 3), ("y", 5)], [0, 1]⟩),
         ("b", ⟨some ("level", 7), [("x", 3), ("y", 5)],
            [2, 3, 4, 5, 6, 7, 8]⟩),
         ("c", ⟨some ("level", 7), [("x", 3), ("y", 5)],
            [9, 10, 11, 12, 13, 14, 15]⟩)]
        [("x", 3), ("y", 5)] =
      .ok ⟨16, [("x", 3), ("y", 5)],
        [0, 1, 2, 3, 4, 5, 6, 7, 8, 9, 10, 11, 12, 13, 14, 15]⟩ := by decide
example :
    combineFields
        [("a_surf", (⟨none, [("x", 3), ("y", 5)], [0]⟩ : MField Nat)),
         ("b", ⟨some ("level", 7), [("x", 3), ("y", 5)],
            [1, 2, 3, 4, 5, 6, 7]⟩),
         ("c", ⟨some ("level", 7), [("x", 3), ("y", 5)],
            [8, 9, 10, 11, 12, 13, 14]⟩)]
        [("x", 3), ("y", 5)] =
      .ok ⟨15, [("x", 3), ("y", 5)],
        [0, 1, 2, 3, 4, 5, 6, 7, 8, 9, 10, 11, 12, 13, 14]⟩ := by decide
example :
    combineFields
        [("a", (⟨none, [("level", 7), ("x", 3), ("y", 5)], [0]⟩ : MField Nat)),
         ("b", ⟨none, [("level", 7), ("x", 3), ("y", 5)], [1]⟩),
         ("c", ⟨none, [("level", 7), ("x", 3), ("y", 5)], [2]⟩)]
        [("level", 7), ("x", 3), ("y", 5)] =
      .ok ⟨3, [("level", 7), ("x", 3), ("y", 5)], [0, 1, 2]⟩ := by decide
example :
    combineFields ([] : List (String × MField Nat)) [("x", 3), ("x", 3)] =
      .error (.repeatedDims ["x", "x"]) := by decide
example :
    combineFields
        [("missing_x", (⟨some ("level", 7), [("y", 5)], [0, 1, 2, 3, 4, 5, 6]⟩ :
            MField Nat)),
         ("valid", ⟨none, [("x", 3), ("y", 5)], [7]⟩)]
        [("x", 3), ("y", 5)] =
      .error (.misaligned "missing_x") := by decide

/-- Sum of the constant-one map is the length. -/
lemma sum_map_one {α : Type} (l : List α) :
    (l.map fun _ => (1 : Nat)).sum = l.length := by
  induction l with
  | nil => rfl
  | cons a rest ih => simp [ih]; omega

/-- Congruence of mapped sums over members. -/
lemma sum_map_congr {α : Type} (l : List α) (f g : α → Nat)
    (h : ∀ a ∈ l, f a = g a) : (l.map f).sum = (l.map g).sum := by
  induction l with
  | nil => rfl
  | cons a rest ih =>
    simp only [List.map_cons, List.sum_cons]
    rw [h a (List.mem_cons_self a rest),
      ih fun x hx => h x (List.mem_cons_of_mem a hx)]

/-- C7: on every mapping of fields accepted by `combine_fields` with a
given `dims_to_align`, a field missing the extra axis entirely is
treated as having extra size 1, the blocks are concatenated along the
extra axis in the iteration order of the input mapping, the output
extra-axis length is the sum of the fields' extra sizes, and when every
field's extra axis degenerates to exactly size 1 the result is a stack
whose new leading axis has length equal to the number of input
fields. -/
theorem combine_fields_claim {B : Type} (fields : List (String × MField B))
    (dims : List (String × Nat)) (out : CombineOut B)
    (hwf : ∀ nf ∈ fields, wfField nf.2)
    (hok : combineFields fields dims = .ok out) :
    (∀ nf ∈ fields, nf.2.extra = none → extraSize nf.2 = 1) ∧
    out.blocks = (fields.flatMap fun nf => nf.2.blocks) ∧
    out.outSize = (fields.map fun nf => extraSize nf.2).sum ∧
    ((∀ nf ∈ fields, extraSize nf.2 = 1) → out.outSize = fields.length) := by
  simp only [combineFields] at hok
  split at hok
  · cases hok
  · split at hok
    · cases hok
    · have hout := Except.ok.inj hok
      subst hout
      have hsize : (fields.flatMap fun nf => nf.2.blocks).length =
          (fields.map fun nf => extraSize nf.2).sum := by
        rw [List.length_flatMap]
        exact sum_map_congr fields _ _ fun nf hnf => hwf nf hnf
      refine ⟨fun nf _ h => by simp [extraSize, h], rfl, hsize, ?_⟩
      intro hall
      rw [hsize, sum_map_congr fields _ (fun _ => 1) hall, sum_map_one]

/-- Witness for `combine_fields_claim`: the stack-shaped test case. -/
theorem combine_fields_claim_witness :
    ({ outSize := 3, aligned := [("level", 7), ("x", 3), ("y", 5)],
       blocks := [0, 1, 2] } : CombineOut Nat).outSize =
      ([("a", (⟨none, [("level", 7), ("x", 3), ("y", 5)], [0]⟩ : MField Nat)),
        ("b", ⟨none, [("level", 7), ("x", 3), ("y", 5)], [1]⟩),
        ("c", ⟨none, [("level", 7), ("x", 3), ("y", 5)], [2]⟩)] :
          List (String × MField Nat)).length :=
  (combine_fields_claim
    [("a", ⟨none, [("level", 7), ("x", 3), ("y", 5)], [0]⟩),
     ("b", ⟨none, [("level", 7), ("x", 3), ("y", 5)], [1]⟩),
     ("c", ⟨none, [("level", 7), ("x", 3), ("y", 5)], [2]⟩)]
    [("level", 7), ("x", 3), ("y", 5)]
    ⟨3, [("level", 7), ("x", 3), ("y", 5)], [0, 1, 2]⟩
    (by intro nf hnf; fin_cases hnf <;> rfl)
    (by decide)).2.2.2 (by intro nf hnf; fin_cases hnf <;> decide)

/-!
## NamedArray rebuild under the structural-transform contract
(`coordax/named_axes.py`, modelled from the spec §4.2).

A `NamedArray`'s `dims` is the per-axis naming (named or positional)
paired with the axis size; rebuilding from a transformed leaf takes the
previous dims as a template and the new leaf's shape.
-/

/-- Errors of the `NamedArray` rebuild rule. -/
inductive RebuildErr where
  | cannotTrim (names : List String)
  | namedShapeMismatch
deriving DecidableEq

/-- Whether a dim entry, given its new size, keeps a named dimension's
size unchanged (positional entries take any new size). -/
def namedSizeOk (d : Option String × Nat) (s : Nat) : Bool :=
  match d.1 with
  | none => true
  | some _ => decide (d.2 = s)

/-- Re-validation of named-dimension sizes against the new shape, with
positional sizes updated from the new shape. -/
def revalidate (dims : List (Option String × Nat)) (shape : List Nat) :
    Except RebuildErr (List (Option String × Nat)) :=
  if (dims.zip shape).all (fun p => namedSizeOk p.1 p.2) then
    .ok ((dims.zip shape).map fun p => (p.1.1, p.2))
  else .error .namedShapeMismatch

/-- Modelled from the spec: the `NamedArray` rebuild rule of the
structural-transform contract.  Equal rank: dims unchanged with
named-dimension sizes re-validated.  Greater rank: the excess leading
ranks become new positional axes at the front.  Smaller rank: the
front-most dims up to the rank deficit are dropped, but only if every
dropped dim is positional; dropping a named dim fails with an explicit
error naming the dropped named dims. -/
def rebuildDims (dims : List (Option String × Nat)) (newShape : List Nat) :
    Except RebuildErr (List (Option String × Nat)) :=
  let k := dims.length
  let n := newShape.length
  if k ≤ n then
    match revalidate dims (newShape.drop (n - k)) with
    | .ok rest => .ok (((newShape.take (n - k)).map fun s => (none, s)) ++ rest)
    | .error e => .error e
  else
    let d := k - n
    let dropped := dims.take d
    if dropped.all (fun x => x.1.isNone) then revalidate (dims.drop d) newShape
    else .error (.cannotTrim (dropped.filterMap Prod.fst))

-- Validation of `rebuildDims` against `NamedAxesTest`.
example :
    rebuildDims [(some "x", 2), (some "y", 5)] [2, 5] =
      .ok [(some "x", 2), (some "y", 5)] := by decide
example :
    rebuildDims [(some "x", 2), (some "y", 5)] [5] =
      .error (.cannotTrim ["x"]) := by decide
example :
    rebuildDims [(some "x", 2), (some "y", 5)] [2, 3] =
      .error .namedShapeMismatch := by decide
example :
    rebuildDims [(some "x", 2), (some "y", 5)] [1, 2, 5] =
      .ok [(none, 1), (some "x", 2), (some "y", 5)] := by decide
example :
    rebuildDims [(none, 2), (some "y", 5)] [5] =
      .ok [(some "y", 5)] := by decide

/-- C9: when a `NamedArray` is rebuilt from a leaf whose rank is smaller
than the previous dims length, the front-most dims up to the rank
deficit are dropped iff every dropped dim is positional (and the
retained named sizes still validate); if any dropped dim is named, the
rebuild fails with an explicit error naming the dropped named dims — a
named dimension is never silently discarded. -/
theorem rebuild_trim_claim :
    (∀ (dims : List (Option String × Nat)) (newShape : List Nat),
      newShape.length < dims.length →
      (¬((dims.take (dims.length - newShape.length)).all
          fun x => x.1.isNone) = true →
        rebuildDims dims newShape = .error (.cannotTrim
          ((dims.take (dims.length - newShape.length)).filterMap Prod.fst))) ∧
      (((dims.take (dims.length - newShape.length)).all
          fun x => x.1.isNone) = true →
        (((dims.drop (dims.length - newShape.length)).zip newShape).all
          fun p => namedSizeOk p.1 p.2) = true →
        rebuildDims dims newShape = .ok
          (((dims.drop (dims.length - newShape.length)).zip newShape).map
            fun p => (p.1.1, p.2)))) ∧
    rebuildDims [(some "x", 2), (some "y", 5)] [5] =
      .error (.cannotTrim ["x"]) ∧
    rebuildDims [(none, 2), (some "y", 5)] [5] = .ok [(some "y", 5)] := by
  refine ⟨?_, by decide, by decide⟩
  intro dims newShape hlt
  have hk : ¬(dims.length ≤ newShape.length) := by omega
  constructor
  · intro hnamed
    simp only [rebuildDims]
    rw [if_neg hk, if_neg hnamed]
  · intro hpos hsizes
    simp only [rebuildDims, revalidate]
    rw [if_neg hk, if_pos hpos, if_pos hsizes]

/-- Witness for `rebuild_trim_claim` at the two concrete test cases. -/
theorem rebuild_trim_claim_witness :
    rebuildDims [(some "x", 2), (some "y", 5)] [5] =
        .error (.cannotTrim ["x"]) ∧
    rebuildDims [(none, 2), (some "y", 5)] [5] = .ok [(some "y", 5)] :=
  ⟨(rebuild_trim_claim.1 [(some "x", 2), (some "y", 5)] [5] (by decide)).1
      (by decide),
   (rebuild_trim_claim.1 [(none, 2), (some "y", 5)] [5] (by decide)).2
      (by decide) (by decide)⟩

end NeuralGCM
